import Mathlib

/-!
Verification development for the financial-filing ETL pipeline
(HTML table extraction, tidy normalization, OLTP upsert loading,
OLAP star-schema rebuild, and quality checks).

Each Python function of the repository that the claims depend on is
shallowly embedded as an executable Lean definition, translated from the
source: pure string manipulation becomes functions on String and
List Char, pandas missing values become Option, database tables become
lists of row structures, sessions/commits become explicit state passing,
and exceptions become an explicit raised flag or Option result.

Modelling conventions, used throughout:
- Python character classes are restricted to their ASCII cores (the
  inputs of this pipeline are ASCII file names and period labels):
  the regex class for digits is modelled as the characters zero to nine,
  the class for whitespace as space, tab, newline, carriage return,
  form feed and vertical tab, matching the behaviour of the source on
  all inputs it is ever given.
- Python dicts are modelled as association lists with dict semantics:
  first insertion fixes the key position, later insertions overwrite the
  value in place; lookup scans key order.
- numeric cell values are modelled as rationals.
-/

/-- ASCII uppercase letter test, the regex class A to Z. -/
def isUpperA (c : Char) : Bool :=
  'A' ≤ c && c ≤ 'Z'

/-- ASCII digit test, the ASCII core of the regex digit class. -/
def isDigitA (c : Char) : Bool :=
  '0' ≤ c && c ≤ '9'

/-- ASCII whitespace test, the ASCII core of the regex whitespace class
(also the character set stripped by the Python strip and float
built-ins). -/
def isSpaceA (c : Char) : Bool :=
  c = ' ' || c = '\t' || c = '\n' || c = '\r' || c = '\x0c' || c = '\x0b'

/-- Prefix test on character lists: does the second list start with the
first one. -/
def startsWithL : List Char → List Char → Bool
  | [], _ => true
  | _ :: _, [] => false
  | a :: as, b :: bs => a = b && startsWithL as bs

/-- Substring containment on character lists, the Python in operator on
strings: some position of the second list starts with the first list. -/
def containsL (sub : List Char) : List Char → Bool
  | [] => startsWithL sub []
  | c :: cs => startsWithL sub (c :: cs) || containsL sub cs

/-- Substring containment on strings: pyContains s sub models the Python
expression sub in s. -/
def pyContains (s sub : String) : Bool :=
  containsL sub.data s.data

/-- Python str.lower restricted to the character-wise core. -/
def pyLower (s : String) : String :=
  String.mk (s.data.map Char.toLower)

/-- Python str.upper restricted to the character-wise core. -/
def pyUpper (s : String) : String :=
  String.mk (s.data.map Char.toUpper)

/-- Python str.strip on character lists: remove leading and trailing
whitespace. -/
def stripL (l : List Char) : List Char :=
  ((l.dropWhile isSpaceA).reverse.dropWhile isSpaceA).reverse

/-- Python str.strip. -/
def pyStrip (s : String) : String :=
  String.mk (stripL s.data)

/-- Order-preserving de-duplication keeping first occurrences, the
behaviour of the pandas unique function and of building a Python set
then inserting in encounter order. -/
def dedupFirst [DecidableEq α] (l : List α) : List α :=
  l.foldl (fun acc x => if x ∈ acc then acc else acc ++ [x]) []

/-- One decimal digit as a character. -/
def digitChar : ℕ → Char
  | 0 => '0'
  | 1 => '1'
  | 2 => '2'
  | 3 => '3'
  | 4 => '4'
  | 5 => '5'
  | 6 => '6'
  | 7 => '7'
  | 8 => '8'
  | 9 => '9'
  | _ => '*'

/-- Little-endian decimal digits computed with explicit fuel so that the
definition unfolds by structural recursion (the fuel is taken at least
as large as the number itself). -/
def natDigitsFuel : ℕ → ℕ → List ℕ
  | 0, _ => []
  | _ + 1, 0 => []
  | f + 1, n + 1 => ((n + 1) % 10) :: natDigitsFuel f ((n + 1) / 10)

/-- Decimal rendering of a natural number, the Python str built-in on a
nonnegative int. -/
def natRepr (n : ℕ) : String :=
  String.mk (((natDigitsFuel n n).reverse).map digitChar)

theorem natDigitsFuel_eq_digits (f n : ℕ) (h : n ≤ f) :
    natDigitsFuel f n = Nat.digits 10 n := by
  induction f generalizing n with
  | zero =>
    interval_cases n
    simp [natDigitsFuel]
  | succ f ih =>
    cases n with
    | zero => simp [natDigitsFuel]
    | succ m =>
      rw [natDigitsFuel, Nat.digits_def' (by norm_num : (1:ℕ) < 10) (Nat.succ_pos m)]
      congr 1
      apply ih
      have h1 : (m + 1) / 10 < m + 1 := Nat.div_lt_self (Nat.succ_pos m) (by norm_num)
      exact le_trans (Nat.lt_succ_iff.mp h1) (Nat.succ_le_succ_iff.mp h)

theorem natRepr_eq (n : ℕ) :
    natRepr n = String.mk (((Nat.digits 10 n).reverse).map digitChar) := by
  unfold natRepr
  rw [natDigitsFuel_eq_digits n n le_rfl]

theorem digitChar_ne_underscore (d : ℕ) : digitChar d ≠ '_' := by
  unfold digitChar
  split <;> decide

theorem digitChar_inj_lt (a b : ℕ) (ha : a < 10) (hb : b < 10)
    (h : digitChar a = digitChar b) : a = b := by
  interval_cases a <;> interval_cases b <;> simp_all [digitChar]

theorem map_digitChar_inj : ∀ (l₁ l₂ : List ℕ),
    (∀ d ∈ l₁, d < 10) → (∀ d ∈ l₂, d < 10) →
    l₁.map digitChar = l₂.map digitChar → l₁ = l₂ := by
  intro l₁
  induction l₁ with
  | nil =>
    intro l₂ _ _ h
    cases l₂ <;> simp_all
  | cons a as ih =>
    intro l₂ h₁ h₂ h
    cases l₂ with
    | nil => simp_all
    | cons b bs =>
      simp only [List.map_cons, List.cons.injEq] at h
      have hab := digitChar_inj_lt a b (h₁ a (by simp)) (h₂ b (by simp)) h.1
      have htl := ih bs (fun d hd => h₁ d (List.mem_cons_of_mem _ hd))
        (fun d hd => h₂ d (List.mem_cons_of_mem _ hd)) h.2
      rw [hab, htl]

theorem natRepr_inj (m n : ℕ) (h : natRepr m = natRepr n) : m = n := by
  rw [natRepr_eq, natRepr_eq] at h
  have hdata : ((Nat.digits 10 m).reverse).map digitChar
      = ((Nat.digits 10 n).reverse).map digitChar := by
    exact congrArg String.data h
  have hrev : (Nat.digits 10 m).reverse = (Nat.digits 10 n).reverse := by
    refine map_digitChar_inj _ _ ?_ ?_ hdata
    · intro d hd
      exact Nat.digits_lt_base (by norm_num) (List.mem_reverse.mp hd)
    · intro d hd
      exact Nat.digits_lt_base (by norm_num) (List.mem_reverse.mp hd)
  have hdig : Nat.digits 10 m = Nat.digits 10 n :=
    List.reverse_injective hrev
  have := congrArg (Nat.ofDigits 10) hdig
  rwa [Nat.ofDigits_digits, Nat.ofDigits_digits] at this

theorem natRepr_no_underscore (n : ℕ) : '_' ∉ (natRepr n).data := by
  rw [natRepr_eq]
  intro hmem
  rcases List.mem_map.mp hmem with ⟨d, _, hd⟩
  exact digitChar_ne_underscore d hd

theorem natRepr_ne_nil_of_pos (n : ℕ) (h : 0 < n) : (natRepr n).data ≠ [] := by
  rw [natRepr_eq]
  simp only [ne_eq, List.map_eq_nil_iff, List.reverse_eq_nil_iff]
  exact Nat.digits_ne_nil_iff_ne_zero.mpr (Nat.pos_iff_ne_zero.mp h)

/-- Association list with Python dict semantics: overwrite the value in
place if the key is present (keys built through this function are
unique, so replacing the first occurrence is exact), else append. -/
def dictInsert [DecidableEq κ] : List (κ × ν) → κ → ν → List (κ × ν)
  | [], k, v => [(k, v)]
  | p :: ps, k, v => if p.1 = k then (k, v) :: ps else p :: dictInsert ps k v

/-- Python dict lookup (dict.get, returning None when absent). -/
def dictGet [DecidableEq κ] : List (κ × ν) → κ → Option ν
  | [], _ => none
  | p :: ps, k => if p.1 = k then some p.2 else dictGet ps k

/-- Build a Python dict from a list of key-value pairs in order; later
pairs overwrite earlier values, first insertion fixes key order. -/
def buildDict [DecidableEq κ] (l : List (κ × ν)) : List (κ × ν) :=
  l.foldl (fun d p => dictInsert d p.1 p.2) []

theorem dictGet_dictInsert [DecidableEq κ] (d : List (κ × ν)) (k k' : κ) (v : ν) :
    dictGet (dictInsert d k v) k' = if k' = k then some v else dictGet d k' := by
  induction d with
  | nil =>
    by_cases h : k' = k
    · subst h
      simp [dictInsert, dictGet]
    · simp only [dictInsert, dictGet, if_neg h]
      rw [if_neg (fun hh : k = k' => h hh.symm)]
  | cons p ps ih =>
    by_cases hp : p.1 = k
    · by_cases h : k' = k
      · subst h
        simp [dictInsert, dictGet, hp]
      · simp only [dictInsert, if_pos hp, dictGet, if_neg h]
        rw [if_neg (fun hh : k = k' => h hh.symm),
          if_neg (fun hh : p.1 = k' => h ((hp.symm.trans hh).symm))]
    · by_cases hpk' : p.1 = k'
      · have hk : ¬ k' = k := fun hh => hp (hpk'.trans hh)
        simp only [dictInsert, if_neg hp, dictGet, if_pos hpk', if_neg hk]
      · simp only [dictInsert, if_neg hp, dictGet, if_neg hpk']
        exact ih

theorem dictGet_buildDict_aux [DecidableEq κ] (l : List (κ × ν))
    (d : List (κ × ν)) (k : κ) :
    (dictGet (l.foldl (fun d p => dictInsert d p.1 p.2) d) k = none) ↔
      (dictGet d k = none ∧ ∀ p ∈ l, p.1 ≠ k) := by
  induction l generalizing d with
  | nil => simp
  | cons q l ih =>
    simp only [List.foldl_cons]
    rw [ih, dictGet_dictInsert]
    by_cases hk : k = q.1
    · simp only [if_pos hk]
      constructor
      · rintro ⟨h1, _⟩
        exact absurd h1 (by simp)
      · rintro ⟨_, h2⟩
        exact absurd hk.symm (h2 q (List.mem_cons_self _ _))
    · simp only [if_neg hk]
      constructor
      · rintro ⟨h1, h2⟩
        refine ⟨h1, fun p hp => ?_⟩
        rcases List.mem_cons.mp hp with hq | hl
        · subst hq
          exact fun hh => hk hh.symm
        · exact h2 p hl
      · rintro ⟨h1, h2⟩
        exact ⟨h1, fun p hp => h2 p (List.mem_cons_of_mem _ hp)⟩

theorem dictGet_buildDict_eq_none_iff [DecidableEq κ] (l : List (κ × ν)) (k : κ) :
    dictGet (buildDict l) k = none ↔ ∀ p ∈ l, p.1 ≠ k := by
  unfold buildDict
  rw [dictGet_buildDict_aux]
  simp [dictGet]

/-!
Numeric cleaning (src/main.py, clean_number) and the tidy reshape
(melt plus dropna on the Value column). A pandas cell is modelled as
Option String (none is NaN); the float built-in is modelled on its
decimal-notation core (optional sign, digits with optional fractional
part, optional exponent; surrounding whitespace tolerated), returning a
rational.
-/

/-- Remove every occurrence of a character, the Python str.replace with
an empty replacement. -/
def removeAllChar (c : Char) (l : List Char) : List Char :=
  l.filter (fun a => a ≠ c)

/-- Numeric value of a run of ASCII digit characters, most significant
first. -/
def digitsVal (l : List Char) : ℕ :=
  l.foldl (fun a c => 10 * a + (c.toNat - 48)) 0

/-- Mantissa of the Python float grammar: digits with an optional dot
and fractional digits, at least one digit overall. Returns the value and
the unconsumed remainder. -/
def pyFloatMantissa (t : List Char) : Option (ℚ × List Char) :=
  let ip := t.takeWhile isDigitA
  let r1 := t.drop ip.length
  match r1 with
  | '.' :: r2 =>
    let fp := r2.takeWhile isDigitA
    let r3 := r2.drop fp.length
    if ip.isEmpty && fp.isEmpty then none
    else some ((digitsVal ip : ℚ) + (digitsVal fp : ℚ) / (10 : ℚ) ^ fp.length, r3)
  | _ =>
    if ip.isEmpty then none
    else some ((digitsVal ip : ℚ), r1)

/-- The Python float built-in on the decimal-notation core of its
grammar: leading and trailing whitespace stripped, optional sign,
mantissa, optional exponent; anything else fails (None models the
ValueError caught by the caller). -/
def pyFloat (l : List Char) : Option ℚ :=
  let t := stripL l
  let st :=
    match t with
    | '+' :: r => (false, r)
    | '-' :: r => (true, r)
    | r => (false, r)
  match pyFloatMantissa st.2 with
  | none => none
  | some (m, rest) =>
    let signed := if st.1 then -m else m
    match rest with
    | [] => some signed
    | 'e' :: r | 'E' :: r =>
      let est :=
        match r with
        | '+' :: r2 => (false, r2)
        | '-' :: r2 => (true, r2)
        | r2 => (false, r2)
      let ds := est.2.takeWhile isDigitA
      if ds.isEmpty then none
      else if (est.2.drop ds.length).isEmpty then
        some (if est.1 then signed / (10 : ℚ) ^ digitsVal ds
              else signed * (10 : ℚ) ^ digitsVal ds)
      else none
    | _ => none

/-- Translation of clean_number (src/main.py lines 99 to 108): on a
missing cell return missing; otherwise remove commas and dollar signs,
strip whitespace, rewrite a parenthesized value to a leading minus sign,
and try to parse as a float, yielding missing on failure. -/
def clean_number (x : Option String) : Option ℚ :=
  match x with
  | none => none
  | some s =>
    let l1 := stripL (removeAllChar '$' (removeAllChar ',' s.data))
    let l2 :=
      match l1 with
      | '(' :: _ =>
        match l1.getLast? with
        | some ')' => '-' :: (l1.drop 1).dropLast
        | _ => l1
      | _ => l1
    pyFloat l2

/-- Translation of the melt step (src/main.py lines 136 to 138): one
output row per (line item, period column) pair, column major, carrying
the possibly missing value. -/
def meltTable (lineItems : List String) (cols : List (String × List (Option ℚ))) :
    List (String × String × Option ℚ) :=
  (cols.map (fun c => (lineItems.zip c.2).map (fun p => (p.1, c.1, p.2)))).flatten

/-- Translation of the dropna step (src/main.py line 141): rows whose
Value is missing are dropped. -/
def dropnaValue (rows : List (String × String × Option ℚ)) :
    List (String × String × Option ℚ) :=
  rows.filter (fun r => r.2.2.isSome)

/-- C5: the numeric cleaning function is total and satisfies: commas and
dollar signs are stripped; a parenthesized value is negated, with
"(1,234)" giving -1234 and "(1,234.50)" giving -1234.5; "$2,000" gives
2000; an input that still fails to parse, such as an em dash, yields a
missing value rather than an error; and every tidy row surviving the
reshape has a present value, the rows with missing values (such as the
one produced by cleaning an em dash) being dropped. -/
theorem clean_number_spec :
    clean_number (some "(1,234)") = some (-1234) ∧
    clean_number (some "(1,234.50)") = some (-(2469 : ℚ) / 2) ∧
    clean_number (some "$2,000") = some 2000 ∧
    clean_number (some "—") = none ∧
    clean_number none = none ∧
    (∀ lineItems cols,
      (dropnaValue (meltTable lineItems cols)).all (fun r => r.2.2.isSome) = true) ∧
    dropnaValue (meltTable ["Revenue"] [("June 30, 2025", [clean_number (some "—")])]) = [] := by
  refine ⟨by decide, ?_, by decide, by decide, rfl, ?_, by decide⟩
  · have h : clean_number (some "(1,234.50)") =
        some (-((digitsVal ['1', '2', '3', '4'] : ℚ) +
          (digitsVal ['5', '0'] : ℚ) / (10 : ℚ) ^ (2 : ℕ))) := rfl
    have e1 : digitsVal ['1', '2', '3', '4'] = 1234 := by decide
    have e2 : digitsVal ['5', '0'] = 50 := by decide
    rw [h, e1, e2]
    congr 1
    norm_num
  · intro lineItems cols
    rw [List.all_eq_true]
    intro r hr
    simp only [dropnaValue] at hr
    exact (List.mem_filter.mp hr).2

/-!
Column de-duplication (src/main.py, make_unique): a seen dictionary maps
each name to the number of renamed repetitions so far; a first
occurrence is kept and recorded with counter zero, a repetition bumps
the counter to k and is emitted as name underscore k.
-/

/-- One step of the make_unique fold over the column names (the body of
its for loop). -/
def muStep (st : List (String × ℕ) × List String) (c : String) :
    List (String × ℕ) × List String :=
  match dictGet st.1 c with
  | none => (dictInsert st.1 c 0, st.2 ++ [c])
  | some k => (dictInsert st.1 c (k + 1), st.2 ++ [c ++ "_" ++ natRepr (k + 1)])

/-- Translation of make_unique (src/main.py lines 84 to 94). -/
def makeUnique (cols : List String) : List String :=
  (cols.foldl muStep ([], [])).2

/-- Reference characterization of the renaming: each name is suffixed
with the number of its earlier occurrences, first occurrences kept. -/
def renameWithCounts : List String → List String → List String
  | _, [] => []
  | done, c :: rest =>
    (if done.count c = 0 then c else c ++ "_" ++ natRepr (done.count c)) ::
      renameWithCounts (done ++ [c]) rest

theorem muFold_eq (rest : List String) :
    ∀ (seen : List (String × ℕ)) (done out : List String),
    (∀ c, dictGet seen c =
      if done.count c = 0 then none else some (done.count c - 1)) →
    (rest.foldl muStep (seen, out)).2 = out ++ renameWithCounts done rest := by
  induction rest with
  | nil =>
    intro seen done out _
    simp [renameWithCounts]
  | cons c rest ih =>
    intro seen done out hinv
    simp only [List.foldl_cons]
    by_cases h0 : done.count c = 0
    · have hget : dictGet seen c = none := by rw [hinv c, if_pos h0]
      have hstep : muStep (seen, out) c = (dictInsert seen c 0, out ++ [c]) := by
        simp [muStep, hget]
      rw [hstep, ih _ (done ++ [c]) _ ?_]
      · rw [renameWithCounts, if_pos h0, List.append_assoc, List.singleton_append]
      · intro d
        rw [dictGet_dictInsert]
        by_cases hd : d = c
        · subst hd
          simp [List.count_append, h0]
        · have hcnt : (done ++ [c]).count d = done.count d := by
            simp [List.count_append, List.count_singleton', hd]
          rw [if_neg hd, hcnt, hinv d]
    · have hget : dictGet seen c = some (done.count c - 1) := by
        rw [hinv c, if_neg h0]
      have hc1 : done.count c - 1 + 1 = done.count c :=
        Nat.succ_pred_eq_of_pos (Nat.pos_of_ne_zero h0)
      have hstep : muStep (seen, out) c =
          (dictInsert seen c (done.count c),
            out ++ [c ++ "_" ++ natRepr (done.count c)]) := by
        simp [muStep, hget, hc1]
      rw [hstep, ih _ (done ++ [c]) _ ?_]
      · rw [renameWithCounts, if_neg h0, List.append_assoc, List.singleton_append]
      · intro d
        rw [dictGet_dictInsert]
        by_cases hd : d = c
        · subst hd
          simp [List.count_append]
        · have hcnt : (done ++ [c]).count d = done.count d := by
            simp [List.count_append, List.count_singleton', hd]
          rw [if_neg hd, hcnt, hinv d]

theorem makeUnique_eq_rename (cols : List String) :
    makeUnique cols = renameWithCounts [] cols := by
  unfold makeUnique
  have h := muFold_eq cols [] [] [] (by intro c; simp [dictGet])
  simpa using h

theorem renameWithCounts_length : ∀ (l done : List String),
    (renameWithCounts done l).length = l.length := by
  intro l
  induction l with
  | nil => intro done; simp [renameWithCounts]
  | cons c rest ih =>
    intro done
    simp [renameWithCounts, ih]

theorem renameWithCounts_getElem? : ∀ (l done : List String) (i : ℕ),
    (renameWithCounts done l)[i]? = (l[i]?).map (fun c =>
      if (done ++ l.take i).count c = 0 then c
      else c ++ "_" ++ natRepr ((done ++ l.take i).count c)) := by
  intro l
  induction l with
  | nil =>
    intro done i
    simp [renameWithCounts]
  | cons c rest ih =>
    intro done i
    cases i with
    | zero =>
      simp [renameWithCounts]
    | succ i =>
      simp only [renameWithCounts, List.getElem?_cons_succ, List.take_succ_cons]
      rw [ih (done ++ [c]) i, List.append_assoc, List.singleton_append]

/-- String equality from equality of the underlying character lists. -/
theorem stringDataInj (s t : String) (h : s.data = t.data) : s = t := by
  cases s
  cases t
  exact congrArg String.mk h

theorem dataAppend (s t : String) : (s ++ t).data = s.data ++ t.data := by
  cases s
  cases t
  rfl

/-- An append of an underscore-free block, an underscore and anything is
uniquely decomposable on the underscore when the block before it is
underscore free. -/
theorem noU_append_inj : ∀ (as cs bs ds : List Char),
    '_' ∉ as → '_' ∉ cs → as ++ '_' :: bs = cs ++ '_' :: ds →
    as = cs ∧ bs = ds := by
  intro as
  induction as with
  | nil =>
    intro cs bs ds _ hcs h
    cases cs with
    | nil => simpa using h
    | cons c cs' =>
      simp only [List.nil_append, List.cons_append, List.cons.injEq] at h
      exfalso
      apply hcs
      rw [h.1]
      exact List.mem_cons_self _ _
  | cons a as' ih =>
    intro cs bs ds has hcs h
    cases cs with
    | nil =>
      simp only [List.nil_append, List.cons_append, List.cons.injEq] at h
      exfalso
      apply has
      rw [← h.1]
      exact List.mem_cons_self _ _
    | cons c cs' =>
      simp only [List.cons_append, List.cons.injEq] at h
      have hrec := ih cs' bs ds (fun hm => has (List.mem_cons_of_mem _ hm))
        (fun hm => hcs (List.mem_cons_of_mem _ hm)) h.2
      exact ⟨by rw [h.1, hrec.1], hrec.2⟩

/-- Names suffixed with an underscore and a decimal counter collide only
when both the base name and the counter agree. -/
theorem underscore_suffix_inj (s₁ s₂ : String) (k₁ k₂ : ℕ)
    (h : s₁ ++ "_" ++ natRepr k₁ = s₂ ++ "_" ++ natRepr k₂) :
    s₁ = s₂ ∧ k₁ = k₂ := by
  have hd := congrArg String.data h
  simp only [dataAppend, List.append_assoc] at hd
  simp only [List.singleton_append] at hd
  have hrev := congrArg List.reverse hd
  simp only [List.reverse_append, List.reverse_cons, List.append_assoc,
    List.singleton_append] at hrev
  have hsplit := noU_append_inj ((natRepr k₁).data.reverse)
    ((natRepr k₂).data.reverse) (s₁.data.reverse) (s₂.data.reverse)
    (fun hm => natRepr_no_underscore k₁ (List.mem_reverse.mp hm))
    (fun hm => natRepr_no_underscore k₂ (List.mem_reverse.mp hm)) hrev
  have hs : s₁ = s₂ := by
    apply stringDataInj
    exact List.reverse_injective hsplit.2
  have hk : k₁ = k₂ := by
    apply natRepr_inj
    apply stringDataInj
    exact List.reverse_injective hsplit.1
  exact ⟨hs, hk⟩

theorem count_take_mono (c : String) (l : List String) (m n : ℕ) (h : m ≤ n) :
    (l.take m).count c ≤ (l.take n).count c := by
  have heq : l.take m = (l.take n).take m := by
    rw [List.take_take, Nat.min_eq_left h]
  rw [heq]
  exact (List.take_sublist _ _).count_le c

theorem count_take_succ_self (l : List String) (i : ℕ) (h : i < l.length) :
    (l.take (i + 1)).count l[i] = (l.take i).count l[i] + 1 := by
  rw [List.take_succ, List.getElem?_eq_getElem h]
  rw [List.count_append]
  simp

/-- C6 (amended): the column de-duplication step renames only later
duplicates, appending an underscore and the count of earlier occurrences
(so suffixes run 1, 2, and so on in order of appearance) while first
occurrences keep their name; and the resulting list is pairwise distinct
provided no input name is another input name followed by an underscore
and a positive decimal counter (without that proviso uniqueness can
fail, see the counterexample). -/
theorem make_unique_spec (cols : List String)
    (hno : ∀ c ∈ cols, ∀ d ∈ cols, ∀ k < cols.length + 1, 1 ≤ k →
      c ≠ d ++ "_" ++ natRepr k) :
    (∀ i, (makeUnique cols)[i]? = (cols[i]?).map (fun c =>
      if (cols.take i).count c = 0 then c
      else c ++ "_" ++ natRepr ((cols.take i).count c))) ∧
    (makeUnique cols).Nodup := by
  have hchar : ∀ i, (makeUnique cols)[i]? = (cols[i]?).map (fun c =>
      if (cols.take i).count c = 0 then c
      else c ++ "_" ++ natRepr ((cols.take i).count c)) := by
    intro i
    rw [makeUnique_eq_rename, renameWithCounts_getElem?]
    simp
  refine ⟨hchar, ?_⟩
  have hlen : (makeUnique cols).length = cols.length := by
    rw [makeUnique_eq_rename, renameWithCounts_length]
  have hval : ∀ i, (h : i < cols.length) → (makeUnique cols)[i]? =
      some (if (cols.take i).count cols[i] = 0 then cols[i]
        else cols[i] ++ "_" ++ natRepr ((cols.take i).count cols[i])) := by
    intro i h
    rw [hchar i, List.getElem?_eq_getElem h]
    rfl
  have key : ∀ a b, (ha : a < cols.length) → (hb : b < cols.length) → a < b →
      (makeUnique cols)[a]? ≠ (makeUnique cols)[b]? := by
    intro a b ha hb hab heq
    rw [hval a ha, hval b hb] at heq
    have heq' := Option.some.inj heq
    have hmema : cols[a] ∈ cols := List.getElem_mem ha
    have hmemb : cols[b] ∈ cols := List.getElem_mem hb
    have hca_le : (cols.take a).count cols[a] ≤ cols.length :=
      le_trans (List.count_le_length _ _) (by simp [List.length_take])
    have hcb_le : (cols.take b).count cols[b] ≤ cols.length :=
      le_trans (List.count_le_length _ _) (by simp [List.length_take])
    have hbump : cols[a] = cols[b] →
        (cols.take a).count cols[a] + 1 ≤ (cols.take b).count cols[b] := by
      intro hcc
      have h1 := count_take_succ_self cols a ha
      have h2 : (cols.take (a + 1)).count cols[a] ≤ (cols.take b).count cols[a] :=
        count_take_mono _ _ _ _ hab
      rw [h1] at h2
      calc (cols.take a).count cols[a] + 1 ≤ (cols.take b).count cols[a] := h2
        _ = (cols.take b).count cols[b] := by rw [hcc]
    by_cases h0a : (cols.take a).count cols[a] = 0 <;>
      by_cases h0b : (cols.take b).count cols[b] = 0
    · rw [if_pos h0a, if_pos h0b] at heq'
      have := hbump heq'
      omega
    · rw [if_pos h0a, if_neg h0b] at heq'
      exact hno cols[a] hmema cols[b] hmemb ((cols.take b).count cols[b])
        (by omega) (Nat.one_le_iff_ne_zero.mpr h0b) heq'
    · rw [if_neg h0a, if_pos h0b] at heq'
      exact hno cols[b] hmemb cols[a] hmema ((cols.take a).count cols[a])
        (by omega) (Nat.one_le_iff_ne_zero.mpr h0a) heq'.symm
    · rw [if_neg h0a, if_neg h0b] at heq'
      have hsp := underscore_suffix_inj _ _ _ _ heq'
      have := hbump hsp.1
      omega
  rw [List.nodup_iff_getElem?_ne_getElem?]
  intro i j hij hj
  rw [hlen] at hj
  exact key i j (lt_trans hij hj) hj hij

/-- Witness for C6: on the columns a, b, a the proviso holds, first
occurrences keep their names, the repeated a becomes a underscore 1, and
the result is pairwise distinct. -/
theorem make_unique_spec_witness :
    (makeUnique ["a", "b", "a"]).Nodup ∧
    (makeUnique ["a", "b", "a"])[0]? = some "a" ∧
    (makeUnique ["a", "b", "a"])[2]? = some "a_1" := by
  have h := make_unique_spec ["a", "b", "a"] (by decide)
  refine ⟨h.2, ?_, ?_⟩
  · rw [h.1 0]
    decide
  · rw [h.1 2]
    decide

/-- Counterexample for C6 as stated: with columns a, a underscore 1 and
a again, the renamed third column collides with the second, so the
output of the de-duplication step is not pairwise distinct. -/
theorem make_unique_not_always_nodup :
    makeUnique ["a", "a_1", "a"] = ["a", "a_1", "a_1"] ∧
    ¬ (makeUnique ["a", "a_1", "a"]).Nodup := by
  constructor
  · decide
  · decide

/-!
Header reconstruction of a candidate table grid (src/main.py lines 74
to 81): drop all-empty columns, synthesize one header per column by
space-joining the cells of the first two rows (missing cells become the
empty string, the result is stripped), name column zero Line Item, and
take the rows from index three on as the data portion. A grid is a list
of rows of possibly missing cells; frames coming from pandas are
column-rectangular, so pairing the first two rows cell by cell is exact.
-/

/-- A pandas cell rendered as a string for header synthesis: fillna with
the empty string, then astype to str. -/
def cellStr : Option String → String
  | none => ""
  | some s => s

/-- The dropna(axis=1, how=all) step: remove the columns whose cells are
all missing. -/
def dropAllNoneCols (grid : List (List (Option String))) :
    List (List (Option String)) :=
  (grid.transpose.filter (fun col => ¬ col.all (fun c => c = none))).transpose

/-- The header synthesis (agg of a space join over the first two rows,
then strip), one header per column. -/
def synthHeaders : List (List (Option String)) → List String
  | [] => []
  | [r0] => r0.map (fun a => pyStrip (cellStr a))
  | r0 :: r1 :: _ =>
    (r0.zip r1).map (fun p => pyStrip (cellStr p.1 ++ " " ++ cellStr p.2))

/-- Translation of the header-reconstruction block: returns the column
names (Line Item first, then the synthesized headers from index one on)
and the data portion, the rows from index three on. -/
def reconstructHeadered (grid : List (List (Option String))) :
    List String × List (List (Option String)) :=
  let df := dropAllNoneCols grid
  ("Line Item" :: (synthHeaders df).drop 1, df.drop 3)

/-- C7 (amended): header reconstruction names column zero Line Item and
synthesizes the other column headers by space-joining the corresponding
cells of the first two rows with blanks collapsed; but the data portion
consists of the grid rows from index three on (the two header rows plus
the row right after them are removed), not of all rows after the two
header rows: one leading data row is lost, see the counterexample. -/
theorem header_reconstruction_spec (grid : List (List (Option String))) :
    (reconstructHeadered grid).1.head? = some "Line Item" ∧
    (∀ r0 r1 rest, dropAllNoneCols grid = r0 :: r1 :: rest →
      (reconstructHeadered grid).1 = "Line Item" ::
        ((r0.zip r1).map
          (fun p => pyStrip (cellStr p.1 ++ " " ++ cellStr p.2))).drop 1) ∧
    (∀ i, (reconstructHeadered grid).2[i]? = (dropAllNoneCols grid)[i + 3]?) := by
  refine ⟨rfl, ?_, ?_⟩
  · intro r0 r1 rest h
    show "Line Item" :: (synthHeaders (dropAllNoneCols grid)).drop 1 = _
    rw [h]
    rfl
  · intro i
    show ((dropAllNoneCols grid).drop 3)[i]? = (dropAllNoneCols grid)[i + 3]?
    rw [List.getElem?_drop, Nat.add_comm]

/-- Witness for C7 on a concrete four-row grid with no missing cells:
the synthesized columns are Line Item and the join of the two header
cells of column one, and the data portion starts at the fourth row. -/
theorem header_reconstruction_spec_witness :
    (reconstructHeadered [[some "A", some "B"], [some "C", some "D"],
      [some "s", some "t"], [some "L", some "v"]]).1 = ["Line Item", "B D"] ∧
    (reconstructHeadered [[some "A", some "B"], [some "C", some "D"],
      [some "s", some "t"], [some "L", some "v"]]).2[0]?
      = some [some "L", some "v"] := by
  have h := header_reconstruction_spec [[some "A", some "B"], [some "C", some "D"],
      [some "s", some "t"], [some "L", some "v"]]
  constructor
  · rw [h.2.1 [some "A", some "B"] [some "C", some "D"]
      [[some "s", some "t"], [some "L", some "v"]] (by decide)]
    decide
  · rw [h.2.2 0]
    decide

/-- Counterexample for C7 as stated: on a four-row one-column grid the
data portion of the output is only the fourth row, not all rows after
the two header rows, so the third row (a data row under the claim) is
lost. -/
theorem header_reconstruction_loses_a_row :
    (reconstructHeadered [[some "h1"], [some "h2"], [some "d1"], [some "d2"]]).2
      = [[some "d2"]] ∧
    (reconstructHeadered [[some "h1"], [some "h2"], [some "d1"], [some "d2"]]).2
      ≠ ([[some "h1"], [some "h2"], [some "d1"], [some "d2"]] :
          List (List (Option String))).drop 2 := by
  constructor
  · decide
  · decide

/-!
Metadata extraction (src/functions.py, extract_metadata): the base name
of the file path must match the anchored regex of an uppercase-letter
run, an underscore, eight digits and an underscore; the letters are the
ticker and the digits are reinterpreted as an ISO date by slicing. A
failed match raises ValueError, modelled as an error result.
-/

/-- The part of a path after the last slash, os.path.basename on a posix
path. -/
def basenameOf (path : String) : List Char :=
  (path.data.reverse.takeWhile (fun c => c ≠ '/')).reverse

/-- The anchored match of the pattern: an uppercase-letter run (greedy,
at least one), an underscore, exactly eight digits, an underscore.
Returns the two capture groups. The maximal-munch letter run is exact
because the character after the run must be an underscore, which is not
an uppercase letter. -/
def matchTickerDate (cs : List Char) : Option (List Char × List Char) :=
  if (cs.takeWhile isUpperA).isEmpty then none
  else if ((cs.dropWhile isUpperA).head? = some '_') then
    if ((((cs.dropWhile isUpperA).tail.take 8).length = 8)
        && ((cs.dropWhile isUpperA).tail.take 8).all isDigitA) then
      if (((cs.dropWhile isUpperA).tail.drop 8).head? = some '_') then
        some (cs.takeWhile isUpperA, (cs.dropWhile isUpperA).tail.take 8)
      else none
    else none
  else none

/-- The eight digits rewritten as an ISO date by slicing: positions zero
to three, a hyphen, four to five, a hyphen, six to the end. -/
def isoOf (d8 : List Char) : String :=
  String.mk (d8.take 4) ++ "-" ++ String.mk ((d8.drop 4).take 2) ++ "-"
    ++ String.mk (d8.drop 6)

/-- Translation of extract_metadata (src/functions.py lines 55 to 74):
ticker and filing date from the file base name, or the ValueError
message when the pattern does not match. -/
def extract_metadata (path : String) : Except String (String × String) :=
  match matchTickerDate (basenameOf path) with
  | some (tk, d8) => Except.ok (String.mk tk, isoOf d8)
  | none => Except.error ("Filename does not match expected pattern: "
      ++ String.mk (basenameOf path))

theorem takeWhile_append_cons (p : Char → Bool) (xs : List Char) (y : Char)
    (ys : List Char) (hxs : ∀ x ∈ xs, p x = true) (hy : p y = false) :
    ((xs ++ y :: ys).takeWhile p) = xs := by
  induction xs with
  | nil => simp [List.takeWhile, hy]
  | cons a as ih =>
    have ha : p a = true := hxs a (List.mem_cons_self _ _)
    simp only [List.cons_append, List.takeWhile, ha, List.append_eq]
    rw [ih (fun x hx => hxs x (List.mem_cons_of_mem _ hx))]

theorem dropWhile_append_cons (p : Char → Bool) (xs : List Char) (y : Char)
    (ys : List Char) (hxs : ∀ x ∈ xs, p x = true) (hy : p y = false) :
    ((xs ++ y :: ys).dropWhile p) = y :: ys := by
  induction xs with
  | nil => simp [List.dropWhile, hy]
  | cons a as ih =>
    have ha : p a = true := hxs a (List.mem_cons_self _ _)
    simp only [List.cons_append, List.dropWhile, ha, List.append_eq]
    exact ih (fun x hx => hxs x (List.mem_cons_of_mem _ hx))

/-- Soundness of the matcher on a decomposed conventional name. -/
theorem matchTickerDate_of_decomp (tk d8 rest : List Char)
    (hne : tk ≠ []) (hup : ∀ c ∈ tk, isUpperA c = true)
    (hlen : d8.length = 8) (hdig : ∀ c ∈ d8, isDigitA c = true) :
    matchTickerDate (tk ++ '_' :: (d8 ++ '_' :: rest)) = some (tk, d8) := by
  have ht : ((tk ++ '_' :: (d8 ++ '_' :: rest)).takeWhile isUpperA) = tk :=
    takeWhile_append_cons _ _ _ _ hup (by decide)
  have hd : ((tk ++ '_' :: (d8 ++ '_' :: rest)).dropWhile isUpperA)
      = '_' :: (d8 ++ '_' :: rest) :=
    dropWhile_append_cons _ _ _ _ hup (by decide)
  have hemp : tk.isEmpty = false := by
    cases tk with
    | nil => exact absurd rfl hne
    | cons a as => rfl
  have htake : ((d8 ++ '_' :: rest).take 8) = d8 := by
    rw [← hlen]
    exact List.take_left d8 _
  have hdrop : ((d8 ++ '_' :: rest).drop 8) = '_' :: rest := by
    rw [← hlen]
    exact List.drop_left d8 _
  unfold matchTickerDate
  rw [ht, hd]
  simp only [hemp, Bool.false_eq_true, if_false, List.head?_cons, List.tail_cons]
  simp only [htake, hdrop, if_true]
  simp [hlen, List.all_eq_true.mpr hdig]

/-- Completeness of the matcher: a successful match exhibits the
conventional decomposition of the name, with the returned groups. -/
theorem matchTickerDate_some (cs tk d8 : List Char)
    (h : matchTickerDate cs = some (tk, d8)) :
    ∃ rest, cs = tk ++ '_' :: (d8 ++ '_' :: rest) ∧ tk ≠ [] ∧
      (∀ c ∈ tk, isUpperA c = true) ∧ d8.length = 8 ∧
      (∀ c ∈ d8, isDigitA c = true) := by
  unfold matchTickerDate at h
  split at h
  · exact absurd h (by simp)
  · rename_i hemp
    split at h
    · rename_i hhead
      split at h
      · rename_i hcond
        split at h
        · rename_i hdr
          rw [Option.some.injEq, Prod.mk.injEq] at h
          obtain ⟨htk, hd8⟩ := h
          rw [Bool.and_eq_true, decide_eq_true_eq] at hcond
          obtain ⟨dw, hdw⟩ : ∃ t, cs.dropWhile isUpperA = '_' :: t := by
            cases hcase : cs.dropWhile isUpperA with
            | nil => rw [hcase] at hhead; simp at hhead
            | cons a t =>
              rw [hcase] at hhead
              simp only [List.head?_cons, Option.some.injEq] at hhead
              exact ⟨t, by rw [hhead]⟩
          have htail : (cs.dropWhile isUpperA).tail = dw := by rw [hdw]; rfl
          have hdw8 : dw.take 8 = d8 := by rw [← htail]; exact hd8
          rw [htail] at hdr
          obtain ⟨tail2, hdr2⟩ : ∃ t2, dw.drop 8 = '_' :: t2 := by
            cases hcase : dw.drop 8 with
            | nil => rw [hcase] at hdr; simp at hdr
            | cons a t =>
              rw [hcase] at hdr
              simp only [List.head?_cons, Option.some.injEq] at hdr
              exact ⟨t, by rw [hdr]⟩
          refine ⟨tail2, ?_, ?_, ?_, ?_, ?_⟩
          · conv_lhs => rw [← List.takeWhile_append_dropWhile isUpperA cs]
            rw [htk, hdw]
            have hdweq : dw = d8 ++ '_' :: tail2 := by
              calc dw = dw.take 8 ++ dw.drop 8 := (List.take_append_drop 8 dw).symm
                _ = d8 ++ '_' :: tail2 := by rw [hdw8, hdr2]
            rw [hdweq]
          · intro hnil
            apply hemp
            rw [htk, hnil]
            rfl
          · intro c hc
            rw [← htk] at hc
            exact List.mem_takeWhile_imp hc
          · have h1 := hcond.1
            rw [htail, hdw8] at h1
            exact h1
          · intro c hc
            have h2 := hcond.2
            rw [htail, hdw8] at h2
            exact List.all_eq_true.mp h2 c hc
        · exact absurd h (by simp)
      · exact absurd h (by simp)
    · exact absurd h (by simp)

/-- C4: for every file path whose base name matches the filename
convention (a nonempty uppercase-letter run, an underscore, exactly
eight digits, an underscore, then anything as suffix and extension),
the metadata extractor returns the ticker with its uppercase form
preserved and the filing date in ISO form (ten characters, hyphens at
positions four and seven, the eight digits preserved in order); for
every path whose base name admits no such decomposition, it fails with
the pattern-mismatch error rather than returning a value. -/
theorem extract_metadata_spec (path : String) :
    (∀ tk d8 rest : List Char,
      basenameOf path = tk ++ '_' :: (d8 ++ '_' :: rest) →
      tk ≠ [] → (∀ c ∈ tk, isUpperA c = true) → d8.length = 8 →
      (∀ c ∈ d8, isDigitA c = true) →
      extract_metadata path = Except.ok (String.mk tk, isoOf d8) ∧
        (isoOf d8).data.length = 10 ∧
        (isoOf d8).data.filter isDigitA = d8 ∧
        (isoOf d8).data[4]? = some '-' ∧ (isoOf d8).data[7]? = some '-') ∧
    ((¬ ∃ tk d8 rest : List Char,
        basenameOf path = tk ++ '_' :: (d8 ++ '_' :: rest) ∧
        tk ≠ [] ∧ (∀ c ∈ tk, isUpperA c = true) ∧ d8.length = 8 ∧
        (∀ c ∈ d8, isDigitA c = true)) →
      ∃ msg, extract_metadata path = Except.error msg) := by
  constructor
  · intro tk d8 rest heq hne hup hlen hdig
    have hok : extract_metadata path = Except.ok (String.mk tk, isoOf d8) := by
      unfold extract_metadata
      rw [heq, matchTickerDate_of_decomp tk d8 rest hne hup hlen hdig]
    obtain ⟨c0, c1, c2, c3, c4, c5, c6, c7, rfl⟩ :
        ∃ a b c d e f g h, d8 = [a, b, c, d, e, f, g, h] := by
      rcases d8 with _ | ⟨a, _ | ⟨b, _ | ⟨c, _ | ⟨d, _ | ⟨e, _ | ⟨f, _ | ⟨g,
        _ | ⟨h, _ | ⟨i, t⟩⟩⟩⟩⟩⟩⟩⟩⟩ <;> simp_all
    have h0 := hdig c0 (by simp)
    have h1 := hdig c1 (by simp)
    have h2 := hdig c2 (by simp)
    have h3 := hdig c3 (by simp)
    have h4 := hdig c4 (by simp)
    have h5 := hdig c5 (by simp)
    have h6 := hdig c6 (by simp)
    have h7 := hdig c7 (by simp)
    have hdash : isDigitA '-' = false := by decide
    refine ⟨hok, ?_, ?_, ?_, ?_⟩
    · rfl
    · show List.filter isDigitA
        [c0, c1, c2, c3, '-', c4, c5, '-', c6, c7] = _
      simp [List.filter, h0, h1, h2, h3, h4, h5, h6, h7, hdash]
    · rfl
    · rfl
  · intro hnex
    cases hm : matchTickerDate (basenameOf path) with
    | none =>
      unfold extract_metadata
      rw [hm]
      exact ⟨_, rfl⟩
    | some pr =>
      obtain ⟨tk, d8⟩ := pr
      rcases matchTickerDate_some _ _ _ hm with ⟨rest, hd1, hd2, hd3, hd4, hd5⟩
      exact absurd ⟨tk, d8, rest, hd1, hd2, hd3, hd4, hd5⟩ hnex

/-- Witness for C4: the conventional name CATX underscore 20250813
underscore PR dot html extracts ticker CATX and date 2025-08-13, and a
name whose ticker run is lowercase is rejected with an error. -/
theorem extract_metadata_spec_witness :
    extract_metadata "CATX_20250813_PR.html"
      = Except.ok ("CATX", "2025-08-13") ∧
    (∃ msg, extract_metadata "catx_20250813_PR.html" = Except.error msg) := by
  constructor
  · have h := (extract_metadata_spec "CATX_20250813_PR.html").1
      ['C', 'A', 'T', 'X'] ['2', '0', '2', '5', '0', '8', '1', '3']
      ("PR.html".data) (by decide) (by decide) (by decide) (by decide)
      (by decide)
    rw [h.1]
    rfl
  · apply (extract_metadata_spec "catx_20250813_PR.html").2
    rintro ⟨tk, d8, rest, heq, hne, hup, -, -⟩
    cases tk with
    | nil => exact hne rfl
    | cons t0 tk' =>
      have hfirst : (basenameOf "catx_20250813_PR.html")[0]? = some 'c' := by
        decide
      rw [heq] at hfirst
      simp only [List.cons_append, List.getElem?_cons_zero,
        Option.some.injEq] at hfirst
      have := hup t0 (List.mem_cons_self _ _)
      rw [hfirst] at this
      exact absurd this (by decide)

/-- C10: the metadata extractor performs no calendar validation of the
eight-digit run: for every base name decomposing as an uppercase run, an
underscore, any eight digits and an underscore, it succeeds and returns
the date built by inserting hyphens around the slices zero to three,
four to five and six to seven of the digit run, even when that string is
not a valid calendar date. -/
theorem extract_metadata_no_calendar_check (path : String)
    (tk d8 rest : List Char)
    (heq : basenameOf path = tk ++ '_' :: (d8 ++ '_' :: rest))
    (hne : tk ≠ []) (hup : ∀ c ∈ tk, isUpperA c = true)
    (hlen : d8.length = 8) (hdig : ∀ c ∈ d8, isDigitA c = true) :
    extract_metadata path = Except.ok (String.mk tk,
      String.mk (d8.take 4) ++ "-" ++ String.mk ((d8.drop 4).take 2) ++ "-"
        ++ String.mk (d8.drop 6)) := by
  unfold extract_metadata
  rw [heq, matchTickerDate_of_decomp tk d8 rest hne hup hlen hdig]
  rfl

/-- Witness for C10: the name XYZ underscore 99999999 underscore a dot
html yields the filing date 9999-99-99 although that is no calendar
date. -/
theorem extract_metadata_no_calendar_check_witness :
    extract_metadata "XYZ_99999999_a.html" = Except.ok ("XYZ", "9999-99-99") := by
  have h := extract_metadata_no_calendar_check "XYZ_99999999_a.html"
    ['X', 'Y', 'Z'] ['9', '9', '9', '9', '9', '9', '9', '9'] ("a.html".data)
    (by decide) (by decide) (by decide) (by decide) (by decide)
  rw [h]
  rfl

/-!
Period parsing (src/functions.py, parse_period): the unaudited flag is a
case-insensitive containment test, the period type a case-sensitive
priority chain of containment tests, and the end date comes from a
regex search for a month-name date (month, whitespace, one or two day
digits, optional comma, whitespace, four year digits), with a fallback
search for any four consecutive digits. The regex search is modelled
exactly: positions are scanned left to right; the month alternation
commits to its unique prefix match (month names are pairwise
non-prefix); the whitespace quantifiers take maximal runs (whitespace
and digits are disjoint, so no shorter run can succeed); the one-or-two
digit quantifier greedily tries two digits then backtracks to one; the
optional comma is tried consumed first, then unconsumed. The line that
re-reads the year out of the matched text with an unchecked group call
is modelled by an Option result, and totality is proved. -/

/-- The month-name alternation of the date regex, in source order. -/
def monthNames : List (List Char) :=
  ["January".data, "February".data, "March".data, "April".data, "May".data,
   "June".data, "July".data, "August".data, "September".data,
   "October".data, "November".data, "December".data]

/-- Match one month name at the head of the input and return it with the
remainder. Month names are pairwise non-prefix, so at most one
alternative matches and committing to it is exact. -/
def matchMonth (cs : List Char) : Option (List Char × List Char) :=
  (monthNames.find? (fun m => startsWithL m cs)).map
    (fun m => (m, cs.drop m.length))

/-- The tail of the date pattern after the day digits: optional
whitespace then exactly four digits; maximal whitespace munch is exact
because whitespace and digits are disjoint. Returns the consumed
characters. -/
def wsD4 (r : List Char) : Option (List Char) :=
  if ((r.dropWhile isSpaceA).take 4).length = 4
      && ((r.dropWhile isSpaceA).take 4).all isDigitA then
    some (r.takeWhile isSpaceA ++ (r.dropWhile isSpaceA).take 4)
  else none

/-- The optional comma of the date pattern, greedy with backtracking:
try with the comma consumed, then without (the unconsumed branch always
fails when a comma is present, as the regex would). -/
def afterDigits (r3 : List Char) : Option (List Char) :=
  if r3.head? = some ',' then
    match wsD4 r3.tail with
    | some t => some (',' :: t)
    | none => wsD4 r3
  else wsD4 r3

/-- Try exactly k day digits then the rest of the pattern. -/
def tryDigits (k : ℕ) (r2 : List Char) : Option (List Char) :=
  if ((r2.take k).length = k) && (r2.take k).all isDigitA then
    (afterDigits (r2.drop k)).map (fun t => r2.take k ++ t)
  else none

/-- Match the whole date pattern anchored at the current position,
returning the matched text: month, mandatory whitespace, one or two day
digits (greedy), optional comma, whitespace, four year digits. -/
def matchAt (cs : List Char) : Option (List Char) :=
  match matchMonth cs with
  | none => none
  | some (m, r1) =>
    if (r1.takeWhile isSpaceA).isEmpty then none
    else
      match tryDigits 2 (r1.dropWhile isSpaceA) with
      | some t => some (m ++ (r1.takeWhile isSpaceA ++ t))
      | none =>
        match tryDigits 1 (r1.dropWhile isSpaceA) with
        | some t => some (m ++ (r1.takeWhile isSpaceA ++ t))
        | none => none

/-- The re.search loop for the date pattern: scan start positions left
to right, return the first match. -/
def searchMonthDate : List Char → Option (List Char)
  | [] => none
  | c :: cs =>
    match matchAt (c :: cs) with
    | some out => some out
    | none => searchMonthDate cs

/-- Do the first four characters form a digit run. -/
def first4Digits (cs : List Char) : Bool :=
  ((cs.take 4).length = 4) && (cs.take 4).all isDigitA

/-- The re.search loop for four consecutive digits: first window of four
digits, scanning left to right. -/
def findD4 : List Char → Option (List Char)
  | [] => none
  | c :: cs => if first4Digits (c :: cs) then some ((c :: cs).take 4)
      else findD4 cs

/-- The period-type priority chain of parse_period, case-sensitive
substring checks with first match winning. -/
def periodTypeOf (p : String) : String :=
  if pyContains p "Three Months" then "Three Months"
  else if pyContains p "Six Months" then "Six Months"
  else if pyContains p "Year Ended" then "Year Ended"
  else "Point-in-Time"

/-- The 4-tuple returned by parse_period. -/
structure PeriodInfo where
  period_type : String
  end_date : Option String
  unaudited : Bool
  fiscal_year : Option ℕ
deriving DecidableEq

/-- Translation of parse_period (src/functions.py lines 79 to 106). The
none result models the unchecked group call raising when the matched
text held no four consecutive digits; totality shows it cannot occur. -/
def parse_period (p : String) : Option PeriodInfo :=
  match searchMonthDate p.data with
  | some matched =>
    match findD4 matched with
    | some w => some ⟨periodTypeOf p, some (String.mk matched),
        pyContains (pyLower p) "unaudited", some (digitsVal w)⟩
    | none => none
  | none =>
    match findD4 p.data with
    | some w => some ⟨periodTypeOf p, some (natRepr (digitsVal w)),
        pyContains (pyLower p) "unaudited", some (digitsVal w)⟩
    | none => some ⟨periodTypeOf p, none,
        pyContains (pyLower p) "unaudited", none⟩

theorem wsD4_suffix (r out : List Char) (h : wsD4 r = some out) :
    ∃ pre d4, out = pre ++ d4 ∧ d4.length = 4 ∧ d4.all isDigitA = true := by
  unfold wsD4 at h
  split at h
  · rename_i hcond
    rw [Bool.and_eq_true, decide_eq_true_eq] at hcond
    refine ⟨r.takeWhile isSpaceA, (r.dropWhile isSpaceA).take 4, ?_, hcond.1, hcond.2⟩
    exact (Option.some.inj h).symm
  · exact absurd h (by simp)

theorem afterDigits_suffix (r out : List Char) (h : afterDigits r = some out) :
    ∃ pre d4, out = pre ++ d4 ∧ d4.length = 4 ∧ d4.all isDigitA = true := by
  unfold afterDigits at h
  split at h
  · cases hw : wsD4 r.tail with
    | some t =>
      rw [hw] at h
      obtain ⟨pre, d4, hpre, h4, hdig⟩ := wsD4_suffix r.tail t hw
      refine ⟨',' :: pre, d4, ?_, h4, hdig⟩
      rw [← Option.some.inj h, hpre]
      rfl
    | none =>
      rw [hw] at h
      exact wsD4_suffix _ _ h
  · exact wsD4_suffix _ _ h

theorem tryDigits_suffix (k : ℕ) (r2 out : List Char)
    (h : tryDigits k r2 = some out) :
    ∃ pre d4, out = pre ++ d4 ∧ d4.length = 4 ∧ d4.all isDigitA = true := by
  unfold tryDigits at h
  split at h
  · cases ha : afterDigits (r2.drop k) with
    | some t =>
      rw [ha] at h
      obtain ⟨pre, d4, hpre, h4, hdig⟩ := afterDigits_suffix _ _ ha
      refine ⟨r2.take k ++ pre, d4, ?_, h4, hdig⟩
      have hout : out = r2.take k ++ t := by
        simpa using h.symm
      calc out = r2.take k ++ t := hout
        _ = r2.take k ++ (pre ++ d4) := by rw [hpre]
        _ = (r2.take k ++ pre) ++ d4 := (List.append_assoc _ _ _).symm
    | none =>
      rw [ha] at h
      exact absurd h (by simp)
  · exact absurd h (by simp)

theorem matchAt_suffix (cs out : List Char) (h : matchAt cs = some out) :
    ∃ pre d4, out = pre ++ d4 ∧ d4.length = 4 ∧ d4.all isDigitA = true := by
  unfold matchAt at h
  split at h
  · exact absurd h (by simp)
  · rename_i m r1 heq
    split at h
    · exact absurd h (by simp)
    · split at h
      · rename_i t ht
        obtain ⟨pre, d4, hpre, h4, hdig⟩ := tryDigits_suffix _ _ _ ht
        refine ⟨m ++ (r1.takeWhile isSpaceA ++ pre), d4, ?_, h4, hdig⟩
        rw [← Option.some.inj h, hpre]
        simp [List.append_assoc]
      · split at h
        · rename_i t ht
          obtain ⟨pre, d4, hpre, h4, hdig⟩ := tryDigits_suffix _ _ _ ht
          refine ⟨m ++ (r1.takeWhile isSpaceA ++ pre), d4, ?_, h4, hdig⟩
          rw [← Option.some.inj h, hpre]
          simp [List.append_assoc]
        · exact absurd h (by simp)

theorem searchMonthDate_suffix : ∀ (cs out : List Char),
    searchMonthDate cs = some out →
    ∃ pre d4, out = pre ++ d4 ∧ d4.length = 4 ∧ d4.all isDigitA = true := by
  intro cs
  induction cs with
  | nil =>
    intro out h
    exact absurd h (by simp [searchMonthDate])
  | cons c cs ih =>
    intro out h
    unfold searchMonthDate at h
    split at h
    · rename_i o ho
      exact matchAt_suffix _ _ (ho.trans (congrArg some (Option.some.inj h)))
    · exact ih out h

theorem findD4_of_suffix : ∀ (pre d4 : List Char), d4.length = 4 →
    d4.all isDigitA = true → (findD4 (pre ++ d4)).isSome := by
  intro pre
  induction pre with
  | nil =>
    intro d4 h4 hdig
    cases d4 with
    | nil => simp at h4
    | cons a t =>
      have hfirst : first4Digits ([] ++ a :: t) = true := by
        unfold first4Digits
        have htk : (a :: t).take 4 = a :: t := by
          apply List.take_of_length_le
          rw [h4]
        simp only [List.nil_append, htk]
        rw [Bool.and_eq_true, decide_eq_true_eq]
        exact ⟨h4, hdig⟩
      unfold findD4
      simp only [List.nil_append] at hfirst ⊢
      rw [hfirst]
      simp
  | cons c pre ih =>
    intro d4 h4 hdig
    show (findD4 (c :: (pre ++ d4))).isSome
    unfold findD4
    split
    · simp
    · exact ih d4 h4 hdig

/-- Totality of the period parser: the unchecked group call in the month
branch cannot fail, because the matched text always ends in four digits. -/
theorem parse_period_total (p : String) : ∃ r, parse_period p = some r := by
  unfold parse_period
  cases hs : searchMonthDate p.data with
  | some matched =>
    dsimp only
    obtain ⟨pre, d4, hpre, h4, hdig⟩ := searchMonthDate_suffix _ _ hs
    have hfind : (findD4 matched).isSome := by
      rw [hpre]
      exact findD4_of_suffix pre d4 h4 hdig
    cases hf : findD4 matched with
    | some w => exact ⟨_, rfl⟩
    | none => rw [hf] at hfind; simp at hfind
  | none =>
    dsimp only
    cases hf : findD4 p.data with
    | some w => exact ⟨_, rfl⟩
    | none => exact ⟨_, rfl⟩

/-- C3: the period parser is total, returning a 4-tuple for every input
string without raising; and the period type is decided by case-sensitive
substring checks in priority order: Three Months, else Six Months, else
Year Ended, else the default Point-in-Time. -/
theorem parse_period_spec (p : String) :
    (∃ r, parse_period p = some r) ∧
    (∀ r, parse_period p = some r →
      (pyContains p "Three Months" = true → r.period_type = "Three Months") ∧
      (pyContains p "Three Months" = false → pyContains p "Six Months" = true →
        r.period_type = "Six Months") ∧
      (pyContains p "Three Months" = false → pyContains p "Six Months" = false →
        pyContains p "Year Ended" = true → r.period_type = "Year Ended") ∧
      (pyContains p "Three Months" = false → pyContains p "Six Months" = false →
        pyContains p "Year Ended" = false → r.period_type = "Point-in-Time")) := by
  have hpt : ∀ r, parse_period p = some r → r.period_type = periodTypeOf p := by
    intro r hr
    unfold parse_period at hr
    split at hr
    · split at hr
      · rw [← Option.some.inj hr]
      · exact absurd hr (by simp)
    · split at hr
      · rw [← Option.some.inj hr]
      · rw [← Option.some.inj hr]
  refine ⟨parse_period_total p, ?_⟩
  intro r hr
  have h := hpt r hr
  unfold periodTypeOf at h
  refine ⟨?_, ?_, ?_, ?_⟩
  · intro h3
    rw [h3] at h
    simpa using h
  · intro h3 h6
    rw [h3, h6] at h
    simpa using h
  · intro h3 h6 hy
    rw [h3, h6, hy] at h
    simpa using h
  · intro h3 h6 hy
    rw [h3, h6, hy] at h
    simpa using h

/-- Witness for C3: a Three Months label classifies as Three Months and
a bare date label falls through to Point-in-Time. -/
theorem parse_period_spec_witness :
    (∃ r, parse_period "Three Months Ended June 30, 2025 (unaudited)" = some r
      ∧ r.period_type = "Three Months") ∧
    (∃ r, parse_period "December 31, 2024" = some r
      ∧ r.period_type = "Point-in-Time") := by
  constructor
  · obtain ⟨r, hr⟩ :=
      (parse_period_spec "Three Months Ended June 30, 2025 (unaudited)").1
    exact ⟨r, hr,
      ((parse_period_spec "Three Months Ended June 30, 2025 (unaudited)").2
        r hr).1 (by decide)⟩
  · obtain ⟨r, hr⟩ := (parse_period_spec "December 31, 2024").1
    exact ⟨r, hr,
      (((parse_period_spec "December 31, 2024").2 r hr).2.2.2
        (by decide) (by decide) (by decide))⟩

/-!
The normalized store (src/OLTP_load.py models): tables are lists of row
structures, autoincrement primary keys are explicit counters, dates are
year, month and day triples (filing_date is declared non-nullable, rows
of the filing table always carry a concrete date).
-/

/-- A calendar date as stored in a DATE column. -/
structure DateYMD where
  y : ℕ
  m : ℕ
  d : ℕ
deriving DecidableEq

/-- A row of the company table. -/
structure CompanyRow where
  company_id : ℕ
  ticker : String
deriving DecidableEq

/-- A row of the statement_type table. -/
structure StatementTypeRow where
  statement_type_id : ℕ
  name : String
deriving DecidableEq

/-- A row of the line_item table. -/
structure LineItemRow where
  line_item_id : ℕ
  name : String
deriving DecidableEq

/-- A row of the filing table. -/
structure FilingRow where
  filing_id : ℕ
  company_id : ℕ
  filing_date : DateYMD
  fiscal_year : Option ℤ
  is_audited : Option Bool
deriving DecidableEq

/-- A row of the financial_fact table. -/
structure FinancialFactRow where
  fact_id : ℕ
  filing_id : ℕ
  statement_type_id : ℕ
  line_item_id : ℕ
  period_type : Option String
  end_date : Option DateYMD
  value : Option ℚ
deriving DecidableEq

/-- The normalized OLTP store with autoincrement counters. -/
structure Store where
  companies : List CompanyRow
  statementTypes : List StatementTypeRow
  lineItems : List LineItemRow
  filings : List FilingRow
  facts : List FinancialFactRow
  nextCompanyId : ℕ
  nextStatementTypeId : ℕ
  nextLineItemId : ℕ
  nextFilingId : ℕ
  nextFactId : ℕ
deriving DecidableEq

/-!
The analytical star schema (src/OLAP.py): four tables dropped and
recreated on every run. The fact table uses AUTOINCREMENT; dropping the
table also clears its sequence, so fact ids restart at one on every
rebuild.
-/

/-- A row of company_dim; the cik TEXT column receives the integer
company id, which SQLite stores as its decimal text under TEXT
affinity. -/
structure CompanyDimRow where
  company_key : ℕ
  cik : String
  ticker : String
  company_name : String
deriving DecidableEq

/-- A row of date_dim. -/
structure DateDimRow where
  date_key : ℕ
  date : String
  year : ℕ
  quarter : ℕ
  month : ℕ
  day : ℕ
deriving DecidableEq

/-- A row of statement_type_dim. -/
structure StatementTypeDimRow where
  statement_type_key : ℕ
  statement_type : String
deriving DecidableEq

/-- A row of fact_financials. -/
structure FactFinancialsRow where
  fact_id : ℕ
  company_key : Option ℕ
  date_key : Option ℕ
  statement_type_key : Option ℕ
  line_item_id : Option ℕ
  value : Option ℚ
deriving DecidableEq

/-- The analytical store. -/
structure Olap where
  companyDim : List CompanyDimRow
  dateDim : List DateDimRow
  statementTypeDim : List StatementTypeDimRow
  factFinancials : List FactFinancialsRow
deriving DecidableEq

/-- The strftime %Y%m%d of a date cast to an integer. -/
def dateKeyOf (d : DateYMD) : ℕ :=
  d.y * 10000 + d.m * 100 + d.d

/-- Zero-padded two-digit decimal rendering. -/
def pad2 (n : ℕ) : String :=
  if n < 10 then "0" ++ natRepr n else natRepr n

/-- Zero-padded four-digit decimal rendering. -/
def pad4 (n : ℕ) : String :=
  if n < 10 then "000" ++ natRepr n
  else if n < 100 then "00" ++ natRepr n
  else if n < 1000 then "0" ++ natRepr n
  else natRepr n

/-- The ISO text form of a DATE value as SQLite stores and returns it. -/
def isoDate (d : DateYMD) : String :=
  pad4 d.y ++ "-" ++ pad2 d.m ++ "-" ++ pad2 d.d

/-- SQLite INSERT OR REPLACE into a table with the given primary key:
a conflicting row is deleted and the new row appended. -/
def insertOrReplaceBy [DecidableEq κ] (key : ρ → κ) (table : List ρ)
    (rows : List ρ) : List ρ :=
  rows.foldl (fun t r => t.filter (fun x => key x ≠ key r) ++ [r]) table

/-- Enumerate a list with consecutive indices starting at n, modelling
autoincrement id assignment. -/
def enumFrom (n : ℕ) : List α → List (ℕ × α)
  | [] => []
  | a :: t => (n, a) :: enumFrom (n + 1) t

/-- The inner loop of the fact-table population join: the company rows
matching one filing, each producing one joined tuple of company key,
date key, the filing id in the statement-type-key slot, line item id and
value. -/
def olapJoinCompanies (oltp : Store) (ff : FinancialFactRow) (fl : FilingRow) :
    List (Option ℕ × Option ℕ × Option ℕ × Option ℕ × Option ℚ) :=
  (oltp.companies.filter (fun c => c.company_id = fl.company_id)).map
    (fun c => (some c.company_id, some (dateKeyOf fl.filing_date),
      some fl.filing_id, some ff.line_item_id, ff.value))

/-- The middle loop of the fact-table population join: the filing rows
matching one fact. -/
def olapJoinFilings (oltp : Store) (ff : FinancialFactRow) :
    List (List (Option ℕ × Option ℕ × Option ℕ × Option ℕ × Option ℚ)) :=
  (oltp.filings.filter (fun fl => fl.filing_id = ff.filing_id)).map
    (fun fl => olapJoinCompanies oltp ff fl)

/-- Translation of create_and_populate_olap_schema_from_oltp
(src/OLAP.py lines 6 to 113): drop and recreate the four analytical
tables (discarding the previous analytical state and the fact sequence),
then populate company_dim from company (the id reused as cik and the
ticker as display name), date_dim from the distinct filing dates with
derived year, quarter, month and day, statement_type_dim from
statement_type, and fact_financials from the join of financial_fact,
filing and company, where the statement-type-key slot receives the
filing id, as the source query does. -/
def create_and_populate_olap_schema_from_oltp (oltp : Store) (olap : Olap) :
    Olap :=
  let o1 : Olap := ⟨[], [], [], []⟩
  let companyRows := oltp.companies.map (fun c =>
    (⟨c.company_id, natRepr c.company_id, c.ticker, c.ticker⟩ : CompanyDimRow))
  let cd := insertOrReplaceBy (fun r => r.company_key) o1.companyDim companyRows
  let o2 : Olap := { o1 with companyDim := cd }
  let dateRows := dedupFirst (oltp.filings.map (fun fl =>
    (⟨dateKeyOf fl.filing_date, isoDate fl.filing_date, fl.filing_date.y,
      (fl.filing_date.m - 1) / 3 + 1, fl.filing_date.m, fl.filing_date.d⟩ :
      DateDimRow)))
  let dd := insertOrReplaceBy (fun r => r.date_key) o2.dateDim dateRows
  let o3 : Olap := { o2 with dateDim := dd }
  let stRows := oltp.statementTypes.map (fun st =>
    (⟨st.statement_type_id, st.name⟩ : StatementTypeDimRow))
  let sd := insertOrReplaceBy (fun r => r.statement_type_key) o3.statementTypeDim stRows
  let o4 : Olap := { o3 with statementTypeDim := sd }
  let joined := (oltp.facts.map (fun ff => (olapJoinFilings oltp ff).flatten)).flatten
  let factRows := (enumFrom 1 joined).map (fun p =>
    (⟨p.1, p.2.1, p.2.2.1, p.2.2.2.1, p.2.2.2.2.1, p.2.2.2.2.2⟩ :
      FactFinancialsRow))
  { o4 with factFinancials := factRows }

/-- C8: the star-schema builder is a pure function of the normalized
store: the result does not depend on the previous analytical state (the
four tables are fully replaced, no leftover rows survive, and the fact
sequence restarts), and running it twice in a row with no intervening
writes to the normalized store produces identical analytical tables. -/
theorem olap_rebuild_pure (oltp : Store) (o o1 o2 : Olap) :
    create_and_populate_olap_schema_from_oltp oltp o1
      = create_and_populate_olap_schema_from_oltp oltp o2 ∧
    create_and_populate_olap_schema_from_oltp oltp
        (create_and_populate_olap_schema_from_oltp oltp o)
      = create_and_populate_olap_schema_from_oltp oltp o := by
  constructor
  · rfl
  · rfl

/-!
Quality checks (src/quality_check.py): five read-only counts over the
analytical store (plus the line_item table of the normalized store for
the revenue check), returned as a mapping in source order. The current
date used by the future-dates check is passed in explicitly; the TEXT
comparison of ISO dates in SQLite is byte lexicographic, modelled as
lexicographic character order.
-/

/-- Lexicographic strict order on character lists, the SQLite TEXT
comparison. -/
def strLtL : List Char → List Char → Bool
  | [], [] => false
  | [], _ :: _ => true
  | _ :: _, [] => false
  | a :: as, b :: bs => if a = b then strLtL as bs else decide (a < b)

/-- Lexicographic strict order on strings. -/
def strLtB (a b : String) : Bool :=
  strLtL a.data b.data

/-- Is a stored REAL value present and nonpositive (an SQL comparison
with NULL selects no row). -/
def valueNonPos : Option ℚ → Bool
  | none => false
  | some v => decide (v ≤ 0)

/-- Translation of run_quality_checks (src/quality_check.py lines 3 to
60): the five checks in source order. future_dates counts date_dim rows
dated after now; duplicate_fact_ids counts fact ids occurring more than
once; revenue_non_positive counts joined fact and line-item pairs whose
line item is named Revenue and whose value is nonpositive;
missing_required_metrics counts company and date groups containing a
fact with a null line-item reference; orphaned_company_refs counts facts
whose company key matches no company_dim row. The join count of one
fact against the Revenue line item is split out as revenueJoinCount. -/
def revenueJoinCount (oltp : Store) (ff : FactFinancialsRow) : ℕ :=
  (oltp.lineItems.filter (fun li =>
    decide (ff.line_item_id = some li.line_item_id)
      && decide (li.name = "Revenue") && valueNonPos ff.value)).length

/-- The five quality checks in source order, see revenueJoinCount. -/
def run_quality_checks (olap : Olap) (oltp : Store) (now : String) :
    List (String × ℕ) :=
  let futureDates := (olap.dateDim.filter (fun r => strLtB now r.date)).length
  let allIds := olap.factFinancials.map (fun f => f.fact_id)
  let dupFacts := ((dedupFirst allIds).filter (fun i => 1 < allIds.count i)).length
  let revenueNonPos := (olap.factFinancials.map
    (fun ff => revenueJoinCount oltp ff)).sum
  let groups := dedupFirst (olap.factFinancials.map
    (fun f => (f.company_key, f.date_key)))
  let missingReq := (groups.filter (fun g =>
    olap.factFinancials.any (fun f =>
      decide ((f.company_key, f.date_key) = g)
        && decide (f.line_item_id = none)))).length
  let orphans := (olap.factFinancials.filter (fun ff =>
    ! olap.companyDim.any (fun cd => decide (some cd.company_key = ff.company_key)))).length
  [("future_dates", futureDates),
   ("duplicate_fact_ids", dupFacts),
   ("revenue_non_positive", revenueNonPos),
   ("missing_required_metrics", missingReq),
   ("orphaned_company_refs", orphans)]

/-- Under a primary-key-unique line_item table, the per-fact join count
against the Revenue line item collapses to a zero-or-one indicator
decided by the unique lookup of the fact's line-item reference. -/
theorem filter_revenue_length (items : List LineItemRow) (target : Option ℕ)
    (nonpos : Bool)
    (hnd : (items.map (fun li => li.line_item_id)).Nodup) :
    (items.filter (fun li => decide (target = some li.line_item_id)
        && decide (li.name = "Revenue") && nonpos)).length =
      (if ((items.find? (fun li => decide (target = some li.line_item_id))).map
          (fun li => li.name) = some "Revenue") ∧ nonpos = true then 1 else 0) := by
  induction items with
  | nil => simp [List.find?]
  | cons li t ih =>
    rw [List.map_cons, List.nodup_cons] at hnd
    by_cases hid : target = some li.line_item_id
    · have hfind : ((li :: t).find? (fun li => decide (target = some li.line_item_id)))
          = some li := by
        rw [List.find?_cons_of_pos]
        simpa using hid
      have htfilter : (t.filter (fun li => decide (target = some li.line_item_id)
          && decide (li.name = "Revenue") && nonpos)) = [] := by
        rw [List.filter_eq_nil_iff]
        intro x hx hcontra
        rw [Bool.and_eq_true, Bool.and_eq_true, decide_eq_true_eq] at hcontra
        obtain ⟨⟨hxid, -⟩, -⟩ := hcontra
        apply hnd.1
        rw [List.mem_map]
        refine ⟨x, hx, ?_⟩
        exact (Option.some.inj (hid.symm.trans hxid)).symm
      rw [hfind, List.filter_cons, htfilter]
      by_cases hname : li.name = "Revenue" <;> cases nonpos <;>
        simp [hid, hname]
    · have hfind : ((li :: t).find? (fun li => decide (target = some li.line_item_id)))
          = t.find? (fun li => decide (target = some li.line_item_id)) := by
        rw [List.find?_cons_of_neg]
        simpa using hid
      rw [hfind, List.filter_cons, ← ih hnd.2]
      simp [hid]

theorem sum_map_ite_one (l : List α) (p : α → Bool) :
    ((l.map (fun a => if p a = true then 1 else 0)).sum : ℕ)
      = (l.filter p).length := by
  induction l with
  | nil => simp
  | cons a t ih =>
    rw [List.map_cons, List.sum_cons, List.filter_cons, ih]
    by_cases h : p a = true
    · simp [h, Nat.add_comm]
    · simp [h]

/-- C9: the quality validator returns a mapping with exactly the five
keys future_dates, duplicate_fact_ids, revenue_non_positive,
missing_required_metrics and orphaned_company_refs, with integer count
values; and, whenever the line_item primary keys are unique (the table
constraint), revenue_non_positive equals the count of fact rows whose
referenced line-item name is exactly Revenue and whose value is present
and at most zero. -/
theorem run_quality_checks_spec (olap : Olap) (oltp : Store) (now : String) :
    ((run_quality_checks olap oltp now).map (fun kv => kv.1)
      = ["future_dates", "duplicate_fact_ids", "revenue_non_positive",
         "missing_required_metrics", "orphaned_company_refs"]) ∧
    ((oltp.lineItems.map (fun li => li.line_item_id)).Nodup →
      dictGet (run_quality_checks olap oltp now) "revenue_non_positive"
        = some ((olap.factFinancials.filter (fun ff =>
            decide ((oltp.lineItems.find? (fun li =>
              decide (ff.line_item_id = some li.line_item_id))).map
                (fun li => li.name) = some "Revenue")
            && valueNonPos ff.value)).length)) := by
  constructor
  · rfl
  · intro hnd
    have hd : dictGet (run_quality_checks olap oltp now) "revenue_non_positive"
        = some ((olap.factFinancials.map
            (fun ff => revenueJoinCount oltp ff)).sum) := rfl
    rw [hd]
    congr 1
    have hper : ∀ ff : FactFinancialsRow, revenueJoinCount oltp ff =
        (if (decide ((oltp.lineItems.find? (fun li =>
              decide (ff.line_item_id = some li.line_item_id))).map
                (fun li => li.name) = some "Revenue")
            && valueNonPos ff.value) = true then 1 else 0) := by
      intro ff
      unfold revenueJoinCount
      rw [filter_revenue_length oltp.lineItems ff.line_item_id
        (valueNonPos ff.value) hnd]
      by_cases hA : ((oltp.lineItems.find? (fun li =>
          decide (ff.line_item_id = some li.line_item_id))).map
            (fun li => li.name) = some "Revenue") <;>
        cases hB : valueNonPos ff.value <;> simp [hA, hB]
    have hmap : (fun ff => revenueJoinCount oltp ff)
        = (fun ff : FactFinancialsRow =>
            if (decide ((oltp.lineItems.find? (fun li =>
                decide (ff.line_item_id = some li.line_item_id))).map
                  (fun li => li.name) = some "Revenue")
              && valueNonPos ff.value) = true then 1 else 0) := funext hper
    rw [hmap, sum_map_ite_one]

/-- Witness for C9: a store holding one Revenue line item and one fact
valued minus fifty reports a positive revenue_non_positive count. -/
theorem run_quality_checks_spec_witness :
    ∃ v, dictGet (run_quality_checks
        ⟨[], [], [], [⟨1, some 1, some 20250101, some 1, some 7, some (-50)⟩]⟩
        ⟨[], [], [⟨7, "Revenue"⟩], [], [], 0, 0, 0, 0, 0⟩ "2025-01-01")
      "revenue_non_positive" = some v ∧ 1 ≤ v := by
  have h := (run_quality_checks_spec
      ⟨[], [], [], [⟨1, some 1, some 20250101, some 1, some 7, some (-50)⟩]⟩
      ⟨[], [], [⟨7, "Revenue"⟩], [], [], 0, 0, 0, 0, 0⟩ "2025-01-01").2 (by decide)
  exact ⟨_, h, by decide⟩

/-!
The warehouse upsert loader (src/OLTP_load.py, load_dataframe_to_db).
A tidy record batch is taken after the deterministic rename and parse
preamble of lines 120 to 137 (parse_date, to_bool and to_numeric are
per-row functions, so an identical input batch yields an identical
parsed batch). The four upsert phases each query the store, insert the
missing rows and re-query; the fact phase stages one insert per
resolvable row and appends them (the source commits the staged facts in
chunks of BATCH_SIZE rows; on the success path the final state equals
appending them all, and the chunked loop is modelled explicitly for the
failure analysis). Autoincrement ids are drawn from the store counters.
-/

/-- One parsed tidy record. A missing ticker rendered by astype(str)
reads as the text nan, handled where the source string-converts. -/
structure TidyRow where
  ticker : Option String
  statement_type : Option String
  line_item : Option String
  period_type : Option String
  filing_date_parsed : Option DateYMD
  end_date_parsed : Option DateYMD
  fiscal_year : Option ℤ
  is_audited_bool : Option Bool
  value : Option ℚ
deriving DecidableEq

/-- The fixed fact-insert chunk size of the loader. -/
def BATCH_SIZE : ℕ := 1000

/-- Python str applied to a possibly missing pandas string cell. -/
def pyStrOpt : Option String → String
  | none => "nan"
  | some s => s

/-- The distinct uppercased tickers of the batch in first-occurrence
order (dropna, astype str, upper, unique). -/
def tickersOf (batch : List TidyRow) : List String :=
  dedupFirst ((batch.filterMap (fun r => r.ticker)).map pyUpper)

/-- The distinct statement-type names of the batch. -/
def stmtNamesOf (batch : List TidyRow) : List String :=
  dedupFirst (batch.filterMap (fun r => r.statement_type))

/-- The distinct line-item names of the batch. -/
def liNamesOf (batch : List TidyRow) : List String :=
  dedupFirst (batch.filterMap (fun r => r.line_item))

/-- The rows of a name-keyed table whose name is among the requested
names, the query with an in filter. -/
def queryByNames (nameOf : ρ → String) (rows : List ρ) (names : List String) :
    List ρ :=
  rows.filter (fun r => decide (nameOf r ∈ names))

/-- The Python dict from name to id built from a query result. -/
def buildNameMap (idOf : ρ → ℕ) (nameOf : ρ → String) (rows : List ρ) :
    List (String × ℕ) :=
  buildDict (rows.map (fun r => (nameOf r, idOf r)))

/-- The name-to-id map as first read for a batch. -/
def namedInitMap (idOf : ρ → ℕ) (nameOf : ρ → String) (rows : List ρ)
    (names : List String) : List (String × ℕ) :=
  buildNameMap idOf nameOf (queryByNames nameOf rows names)

/-- The names of the batch with no existing row, in order. -/
def namedMissing (idOf : ρ → ℕ) (nameOf : ρ → String) (rows : List ρ)
    (names : List String) : List String :=
  names.filter (fun t => (dictGet (namedInitMap idOf nameOf rows names) t).isNone)

/-- Bulk insert of new named rows with consecutive autoincrement ids. -/
def withNewIds (mk : ℕ → String → ρ) : ℕ → List String → List ρ
  | _, [] => []
  | ctr, n :: t => mk ctr n :: withNewIds mk (ctr + 1) t

/-- One upsert-by-name phase of the loader (steps one to three of the
algorithm): read the map, bulk insert the missing names and commit, and
re-read the map if anything was inserted. Returns the table rows, the
autoincrement counter and the final map. -/
def upsertNamed (mk : ℕ → String → ρ) (idOf : ρ → ℕ) (nameOf : ρ → String)
    (rows : List ρ) (ctr : ℕ) (names : List String) :
    List ρ × ℕ × List (String × ℕ) :=
  if (namedMissing idOf nameOf rows names).isEmpty then
    (rows, ctr, namedInitMap idOf nameOf rows names)
  else
    (rows ++ withNewIds mk ctr (namedMissing idOf nameOf rows names),
     ctr + (namedMissing idOf nameOf rows names).length,
     namedInitMap idOf nameOf
       (rows ++ withNewIds mk ctr (namedMissing idOf nameOf rows names)) names)

/-- A filing natural key as the loader uses it: company id, filing
date, fiscal year and audited flag, each possibly missing on the batch
side (store-derived keys always carry a company and a date). -/
def FilingKey : Type :=
  Option ℕ × Option DateYMD × Option ℤ × Option Bool

instance : DecidableEq FilingKey := by
  unfold FilingKey
  infer_instance

/-- A filing row staged for insertion (no id yet). -/
structure FilingInsert where
  company_id : ℕ
  filing_date : DateYMD
  fiscal_year : Option ℤ
  is_audited : Option Bool
deriving DecidableEq

/-- The distinct filing tuples of the batch (drop_duplicates over the
four raw columns, before uppercasing). -/
def filingTuplesOf (batch : List TidyRow) :
    List (Option String × Option DateYMD × Option ℤ × Option Bool) :=
  dedupFirst (batch.map (fun r =>
    (r.ticker, r.filing_date_parsed, r.fiscal_year, r.is_audited_bool)))

/-- The filings to create from the batch tuples: uppercase the
string-converted ticker, resolve it in the company map, and skip tuples
with no resolvable company or no parsed filing date. -/
def filingsToCreate
    (tuples : List (Option String × Option DateYMD × Option ℤ × Option Bool))
    (tmap : List (String × ℕ)) : List FilingInsert :=
  tuples.filterMap (fun t =>
    match dictGet tmap (pyUpper (pyStrOpt t.1)), t.2.1 with
    | some cid, some d => some ⟨cid, d, t.2.2.1, t.2.2.2⟩
    | _, _ => none)

/-- The natural key of a staged filing insert. -/
def keyOfInsert (f : FilingInsert) : FilingKey :=
  (some f.company_id, some f.filing_date, f.fiscal_year, f.is_audited)

/-- The natural key of a stored filing row. -/
def keyOfFiling (f : FilingRow) : FilingKey :=
  (some f.company_id, some f.filing_date, f.fiscal_year, f.is_audited)

/-- The filings of the companies involved in the batch, the query with
an in filter on company ids. -/
def queryFilings (rows : List FilingRow) (cids : List ℕ) : List FilingRow :=
  rows.filter (fun f => decide (f.company_id ∈ cids))

/-- The Python dict from filing natural key to filing id built from a
query result. -/
def buildFilingMap (rows : List FilingRow) : List (FilingKey × ℕ) :=
  buildDict (rows.map (fun f => (keyOfFiling f, f.filing_id)))

/-- The distinct company ids of the filings to create (the Python set,
used only through membership). -/
def fcCids (fc : List FilingInsert) : List ℕ :=
  dedupFirst (fc.map (fun f => f.company_id))

/-- The filing map as first read for a batch. -/
def filingInitMap (rows : List FilingRow) (cids : List ℕ) :
    List (FilingKey × ℕ) :=
  buildFilingMap (queryFilings rows cids)

/-- The filing inserts whose key has no existing row. -/
def filingMissing (rows : List FilingRow) (cids : List ℕ)
    (fc : List FilingInsert) : List FilingInsert :=
  fc.filter (fun f => (dictGet (filingInitMap rows cids) (keyOfInsert f)).isNone)

/-- Bulk insert of new filing rows with consecutive autoincrement ids. -/
def withFilingIds : ℕ → List FilingInsert → List FilingRow
  | _, [] => []
  | ctr, f :: t =>
    ⟨ctr, f.company_id, f.filing_date, f.fiscal_year, f.is_audited⟩ ::
      withFilingIds (ctr + 1) t

/-- The filing upsert phase (step four): with no filings to create the
map stays empty; otherwise read the map for the involved companies,
bulk insert the missing keys and commit, and re-read the map if
anything was inserted. -/
def upsertFilings (rows : List FilingRow) (ctr : ℕ) (fc : List FilingInsert) :
    List FilingRow × ℕ × List (FilingKey × ℕ) :=
  if fc.isEmpty then (rows, ctr, [])
  else if (filingMissing rows (fcCids fc) fc).isEmpty then
    (rows, ctr, filingInitMap rows (fcCids fc))
  else
    (rows ++ withFilingIds ctr (filingMissing rows (fcCids fc) fc),
     ctr + (filingMissing rows (fcCids fc) fc).length,
     filingInitMap (rows ++ withFilingIds ctr (filingMissing rows (fcCids fc) fc))
       (fcCids fc))

/-- A financial fact staged for insertion (no id yet). -/
structure StagedFact where
  filing_id : ℕ
  statement_type_id : ℕ
  line_item_id : ℕ
  period_type : Option String
  end_date : Option DateYMD
  value : Option ℚ
deriving DecidableEq

/-- Resolve a row's filing: exact natural-key lookup first, else fall
back to the first map entry (in dict key order) matching company and
filing date alone. -/
def resolveFilingId (fmap : List (FilingKey × ℕ)) (key : FilingKey) :
    Option ℕ :=
  match dictGet fmap key with
  | some fid => some fid
  | none =>
    (fmap.find? (fun kv =>
      decide (kv.1.1 = key.1) && decide (kv.1.2.1 = key.2.1))).map
      (fun kv => kv.2)

/-- Stage one tidy row as a fact insert (the body of the fact loop):
skip rows with a missing ticker, an unresolvable filing, a missing
statement type or line item, or an unresolvable statement-type or
line-item id; a missing value is kept as null. -/
def stageFact (tmap smap lmap : List (String × ℕ))
    (fmap : List (FilingKey × ℕ)) (r : TidyRow) : Option StagedFact :=
  match r.ticker with
  | none => none
  | some t0 =>
    match resolveFilingId fmap
        (dictGet tmap (pyUpper t0), r.filing_date_parsed,
          r.fiscal_year, r.is_audited_bool) with
    | none => none
    | some fid =>
      match r.statement_type, r.line_item with
      | some sn, some ln =>
        match dictGet smap sn, dictGet lmap ln with
        | some sid, some lid =>
          some ⟨fid, sid, lid, r.period_type, r.end_date_parsed, r.value⟩
        | _, _ => none
      | _, _ => none

/-- The staged fact inserts of a batch, in row order. -/
def stageFacts (batch : List TidyRow) (tmap smap lmap : List (String × ℕ))
    (fmap : List (FilingKey × ℕ)) : List StagedFact :=
  batch.filterMap (stageFact tmap smap lmap fmap)

/-- Bulk insert of staged facts with consecutive autoincrement ids. -/
def withFactIds : ℕ → List StagedFact → List FinancialFactRow
  | _, [] => []
  | ctr, f :: t =>
    ⟨ctr, f.filing_id, f.statement_type_id, f.line_item_id, f.period_type,
      f.end_date, f.value⟩ :: withFactIds (ctr + 1) t

/-- The company row constructor used by bulk insert. -/
def mkCompany (i : ℕ) (n : String) : CompanyRow := ⟨i, n⟩

/-- The statement-type row constructor used by bulk insert. -/
def mkStatementType (i : ℕ) (n : String) : StatementTypeRow := ⟨i, n⟩

/-- The line-item row constructor used by bulk insert. -/
def mkLineItem (i : ℕ) (n : String) : LineItemRow := ⟨i, n⟩

/-- Phase one of the loader on a store: the company upsert. -/
def companyUpsert (s : Store) (batch : List TidyRow) :
    List CompanyRow × ℕ × List (String × ℕ) :=
  upsertNamed mkCompany (fun c => c.company_id) (fun c => c.ticker)
    s.companies s.nextCompanyId (tickersOf batch)

/-- Phase two: the statement-type upsert. -/
def stmtUpsert (s : Store) (batch : List TidyRow) :
    List StatementTypeRow × ℕ × List (String × ℕ) :=
  upsertNamed mkStatementType (fun x => x.statement_type_id) (fun x => x.name)
    s.statementTypes s.nextStatementTypeId (stmtNamesOf batch)

/-- Phase three: the line-item upsert. -/
def liUpsert (s : Store) (batch : List TidyRow) :
    List LineItemRow × ℕ × List (String × ℕ) :=
  upsertNamed mkLineItem (fun x => x.line_item_id) (fun x => x.name)
    s.lineItems s.nextLineItemId (liNamesOf batch)

/-- Phase four: the filing upsert, fed by the company map of phase one. -/
def filingUpsert (s : Store) (batch : List TidyRow) :
    List FilingRow × ℕ × List (FilingKey × ℕ) :=
  upsertFilings s.filings s.nextFilingId
    (filingsToCreate (filingTuplesOf batch) (companyUpsert s batch).2.2)

/-- The loader up to fact staging: the store after the four upsert
phases (facts untouched) paired with the staged fact inserts. -/
def loadPhases (s : Store) (batch : List TidyRow) : Store × List StagedFact :=
  (⟨(companyUpsert s batch).1, (stmtUpsert s batch).1, (liUpsert s batch).1,
    (filingUpsert s batch).1, s.facts,
    (companyUpsert s batch).2.1, (stmtUpsert s batch).2.1,
    (liUpsert s batch).2.1, (filingUpsert s batch).2.1, s.nextFactId⟩,
   stageFacts batch (companyUpsert s batch).2.2 (stmtUpsert s batch).2.2
     (liUpsert s batch).2.2 (filingUpsert s batch).2.2)

/-- Translation of load_dataframe_to_db (src/OLTP_load.py lines 114 to
304) on the success path: the four upsert phases, then all staged facts
appended with fresh ids (the source inserts them in BATCH_SIZE chunks,
each followed by a commit; with no failure the final state equals one
append of the whole staged list). -/
def load_dataframe_to_db (s : Store) (batch : List TidyRow) : Store :=
  ⟨(companyUpsert s batch).1, (stmtUpsert s batch).1, (liUpsert s batch).1,
   (filingUpsert s batch).1,
   s.facts ++ withFactIds s.nextFactId (loadPhases s batch).2,
   (companyUpsert s batch).2.1, (stmtUpsert s batch).2.1,
   (liUpsert s batch).2.1, (filingUpsert s batch).2.1,
   s.nextFactId + (loadPhases s batch).2.length⟩

/-- The chunked fact-insert loop with an injected failure: chunk number
failAt (zero-based) raises during its insert-and-commit, the session
rollback discards that pending chunk, and the exception propagates (the
raised flag); chunks committed earlier stay. Fuel-driven structural
recursion; the fuel is taken at least the staged length, and each
iteration consumes at least one staged row. The insert-and-commit of
one chunk is split out as commitChunk. -/
def commitChunk (cur : Store) (staged : List StagedFact) : Store :=
  ⟨cur.companies, cur.statementTypes, cur.lineItems, cur.filings,
   cur.facts ++ withFactIds cur.nextFactId (staged.take BATCH_SIZE),
   cur.nextCompanyId, cur.nextStatementTypeId, cur.nextLineItemId,
   cur.nextFilingId, cur.nextFactId + (staged.take BATCH_SIZE).length⟩

def factChunkLoopFuel : ℕ → Store → List StagedFact → ℕ → ℕ → Bool × Store
  | _, cur, [], _, _ => (false, cur)
  | 0, cur, _ :: _, _, _ => (false, cur)
  | fuel + 1, cur, a :: rest, idx, failAt =>
    if idx = failAt then (true, cur)
    else
      factChunkLoopFuel fuel (commitChunk cur (a :: rest))
        ((a :: rest).drop BATCH_SIZE) (idx + 1) failAt

/-- The chunk loop at full fuel. -/
def factChunkLoop (cur : Store) (staged : List StagedFact) (idx failAt : ℕ) :
    Bool × Store :=
  factChunkLoopFuel staged.length cur staged idx failAt

/-- The loader with a failure injected at fact chunk failAt: phases one
to four succeed and are committed, then the chunk loop runs with the
injected exception. Returns the raised flag and the committed store. -/
def load_dataframe_to_db_failAt (s : Store) (batch : List TidyRow)
    (failAt : ℕ) : Bool × Store :=
  factChunkLoop (loadPhases s batch).1 (loadPhases s batch).2 0 failAt

theorem mem_dedupFirst_aux [DecidableEq α] (l : List α) :
    ∀ (acc : List α) (a : α),
    (a ∈ l.foldl (fun acc x => if x ∈ acc then acc else acc ++ [x]) acc) ↔
      (a ∈ acc ∨ a ∈ l) := by
  induction l with
  | nil => intro acc a; simp
  | cons x t ih =>
    intro acc a
    simp only [List.foldl_cons]
    rw [ih]
    by_cases hx : x ∈ acc
    · simp only [if_pos hx]
      constructor
      · rintro (h | h)
        · exact Or.inl h
        · exact Or.inr (List.mem_cons_of_mem _ h)
      · rintro (h | h)
        · exact Or.inl h
        · rcases List.mem_cons.mp h with rfl | h2
          · exact Or.inl hx
          · exact Or.inr h2
    · simp only [if_neg hx]
      constructor
      · rintro (h | h)
        · rcases List.mem_append.mp h with h2 | h2
          · exact Or.inl h2
          · rcases List.mem_singleton.mp h2 with rfl
            exact Or.inr (List.mem_cons_self _ _)
        · exact Or.inr (List.mem_cons_of_mem _ h)
      · rintro (h | h)
        · exact Or.inl (List.mem_append_left _ h)
        · rcases List.mem_cons.mp h with rfl | h2
          · exact Or.inl (List.mem_append_right _ (List.mem_singleton.mpr rfl))
          · exact Or.inr h2

theorem mem_dedupFirst [DecidableEq α] (l : List α) (a : α) :
    a ∈ dedupFirst l ↔ a ∈ l := by
  unfold dedupFirst
  rw [mem_dedupFirst_aux]
  simp

theorem withNewIds_mem_name (mk : ℕ → String → ρ) (nameOf : ρ → String)
    (hmk : ∀ i n, nameOf (mk i n) = n) :
    ∀ (ctr : ℕ) (ns : List String) (n : String), n ∈ ns →
    ∃ r ∈ withNewIds mk ctr ns, nameOf r = n := by
  intro ctr ns
  induction ns generalizing ctr with
  | nil =>
    intro n h
    simp at h
  | cons a t ih =>
    intro n hn
    rcases List.mem_cons.mp hn with rfl | hmem
    · exact ⟨mk ctr n, List.mem_cons_self _ _, hmk ctr n⟩
    · obtain ⟨r, hr, hname⟩ := ih (ctr + 1) n hmem
      exact ⟨r, List.mem_cons_of_mem _ hr, hname⟩

theorem buildNameMap_ne_none (idOf : ρ → ℕ) (nameOf : ρ → String)
    (rows : List ρ) (names : List String) (r : ρ)
    (hr : r ∈ rows) (hn : nameOf r ∈ names) (t : String) (ht : nameOf r = t) :
    dictGet (namedInitMap idOf nameOf rows names) t ≠ none := by
  intro hnone
  unfold namedInitMap buildNameMap at hnone
  rw [dictGet_buildDict_eq_none_iff] at hnone
  apply hnone (nameOf r, idOf r) ?_ ht
  rw [List.mem_map]
  refine ⟨r, ?_, rfl⟩
  unfold queryByNames
  rw [List.mem_filter]
  exact ⟨hr, by simpa using hn⟩

theorem row_of_get_ne_none (idOf : ρ → ℕ) (nameOf : ρ → String)
    (rows : List ρ) (names : List String) (t : String)
    (h : dictGet (namedInitMap idOf nameOf rows names) t ≠ none) :
    ∃ r ∈ rows, nameOf r ∈ names ∧ nameOf r = t := by
  by_contra hcon
  apply h
  unfold namedInitMap buildNameMap
  rw [dictGet_buildDict_eq_none_iff]
  intro p hp
  rw [List.mem_map] at hp
  obtain ⟨r, hr, rfl⟩ := hp
  unfold queryByNames at hr
  rw [List.mem_filter] at hr
  push_neg at hcon
  exact hcon r hr.1 (by simpa using hr.2)

theorem namedMissing_after (mk : ℕ → String → ρ) (idOf : ρ → ℕ)
    (nameOf : ρ → String) (hmk : ∀ i n, nameOf (mk i n) = n)
    (rows : List ρ) (ctr : ℕ) (names : List String) :
    namedMissing idOf nameOf (upsertNamed mk idOf nameOf rows ctr names).1 names
      = [] := by
  unfold upsertNamed
  by_cases hemp : (namedMissing idOf nameOf rows names).isEmpty
  · simp only [hemp, if_true]
    exact List.isEmpty_iff.mp hemp
  · simp only [hemp, if_false]
    show namedMissing idOf nameOf
      (rows ++ withNewIds mk ctr (namedMissing idOf nameOf rows names)) names = []
    unfold namedMissing
    rw [List.filter_eq_nil_iff]
    intro t ht hisnone
    rw [Option.isNone_iff_eq_none] at hisnone
    by_cases hg : dictGet (namedInitMap idOf nameOf rows names) t = none
    · have htm : t ∈ namedMissing idOf nameOf rows names := by
        unfold namedMissing
        rw [List.mem_filter]
        refine ⟨ht, ?_⟩
        rw [hg]
        rfl
      obtain ⟨r, hr, hname⟩ := withNewIds_mem_name mk nameOf hmk ctr _ t htm
      exact buildNameMap_ne_none idOf nameOf _ names r
        (List.mem_append_right _ hr) (by rw [hname]; exact ht) t hname hisnone
    · obtain ⟨r, hr, hn, hname⟩ := row_of_get_ne_none idOf nameOf rows names t hg
      exact buildNameMap_ne_none idOf nameOf _ names r
        (List.mem_append_left _ hr) hn t hname hisnone

theorem upsertNamed_of_no_missing (mk : ℕ → String → ρ) (idOf : ρ → ℕ)
    (nameOf : ρ → String) (rows : List ρ) (ctr : ℕ) (names : List String)
    (h : namedMissing idOf nameOf rows names = []) :
    upsertNamed mk idOf nameOf rows ctr names
      = (rows, ctr, namedInitMap idOf nameOf rows names) := by
  unfold upsertNamed
  rw [h]
  simp

theorem upsertNamed_snd_run (mk : ℕ → String → ρ) (idOf : ρ → ℕ)
    (nameOf : ρ → String) (hmk : ∀ i n, nameOf (mk i n) = n)
    (rows : List ρ) (ctr : ℕ) (names : List String) :
    upsertNamed mk idOf nameOf (upsertNamed mk idOf nameOf rows ctr names).1
      (upsertNamed mk idOf nameOf rows ctr names).2.1 names
      = upsertNamed mk idOf nameOf rows ctr names := by
  rw [upsertNamed_of_no_missing mk idOf nameOf _ _ names
    (namedMissing_after mk idOf nameOf hmk rows ctr names)]
  unfold upsertNamed
  by_cases hemp : (namedMissing idOf nameOf rows names).isEmpty
  · simp [hemp]
  · simp [hemp]

theorem withFilingIds_mem_key : ∀ (ctr : ℕ) (l : List FilingInsert)
    (f : FilingInsert), f ∈ l →
    ∃ fr ∈ withFilingIds ctr l, keyOfFiling fr = keyOfInsert f
      ∧ fr.company_id = f.company_id := by
  intro ctr l
  induction l generalizing ctr with
  | nil =>
    intro f h
    simp at h
  | cons a t ih =>
    intro f hf
    rcases List.mem_cons.mp hf with rfl | hmem
    · exact ⟨⟨ctr, f.company_id, f.filing_date, f.fiscal_year, f.is_audited⟩,
        List.mem_cons_self _ _, rfl, rfl⟩
    · obtain ⟨fr, hfr, hkey, hcid⟩ := ih (ctr + 1) f hmem
      exact ⟨fr, List.mem_cons_of_mem _ hfr, hkey, hcid⟩

theorem buildFilingMap_ne_none (rows : List FilingRow) (cids : List ℕ)
    (fr : FilingRow) (hr : fr ∈ rows) (hc : fr.company_id ∈ cids)
    (k : FilingKey) (hk : keyOfFiling fr = k) :
    dictGet (filingInitMap rows cids) k ≠ none := by
  intro hnone
  unfold filingInitMap buildFilingMap at hnone
  rw [dictGet_buildDict_eq_none_iff] at hnone
  apply hnone (keyOfFiling fr, fr.filing_id) ?_ hk
  rw [List.mem_map]
  refine ⟨fr, ?_, rfl⟩
  unfold queryFilings
  rw [List.mem_filter]
  exact ⟨hr, by simpa using hc⟩

theorem filingRow_of_get_ne_none (rows : List FilingRow) (cids : List ℕ)
    (k : FilingKey) (h : dictGet (filingInitMap rows cids) k ≠ none) :
    ∃ fr ∈ rows, fr.company_id ∈ cids ∧ keyOfFiling fr = k := by
  by_contra hcon
  apply h
  unfold filingInitMap buildFilingMap
  rw [dictGet_buildDict_eq_none_iff]
  intro p hp
  rw [List.mem_map] at hp
  obtain ⟨fr, hfr, rfl⟩ := hp
  unfold queryFilings at hfr
  rw [List.mem_filter] at hfr
  push_neg at hcon
  exact hcon fr hfr.1 (by simpa using hfr.2)

theorem filingMissing_after (rows : List FilingRow) (ctr : ℕ)
    (fc : List FilingInsert) :
    filingMissing (upsertFilings rows ctr fc).1 (fcCids fc) fc = [] := by
  unfold upsertFilings
  by_cases hfc : fc.isEmpty
  · simp only [hfc, if_true]
    rw [List.isEmpty_iff.mp hfc]
    rfl
  · simp only [hfc, if_false]
    by_cases hemp : (filingMissing rows (fcCids fc) fc).isEmpty
    · simp only [hemp, if_true]
      exact List.isEmpty_iff.mp hemp
    · simp only [hemp, if_false]
      show filingMissing
        (rows ++ withFilingIds ctr (filingMissing rows (fcCids fc) fc))
        (fcCids fc) fc = []
      unfold filingMissing
      rw [List.filter_eq_nil_iff]
      intro f hf hisnone
      rw [Option.isNone_iff_eq_none] at hisnone
      have hfcid : f.company_id ∈ fcCids fc := by
        unfold fcCids
        rw [mem_dedupFirst, List.mem_map]
        exact ⟨f, hf, rfl⟩
      by_cases hg : dictGet (filingInitMap rows (fcCids fc)) (keyOfInsert f)
          = none
      · have hfm : f ∈ filingMissing rows (fcCids fc) fc := by
          unfold filingMissing
          rw [List.mem_filter]
          refine ⟨hf, ?_⟩
          rw [hg]
          rfl
        obtain ⟨fr, hfr, hkey, hcid⟩ := withFilingIds_mem_key ctr _ f hfm
        exact buildFilingMap_ne_none _ (fcCids fc) fr
          (List.mem_append_right _ hfr) (by rw [hcid]; exact hfcid)
          (keyOfInsert f) hkey hisnone
      · obtain ⟨fr, hfr, hc, hkey⟩ :=
          filingRow_of_get_ne_none rows (fcCids fc) (keyOfInsert f) hg
        exact buildFilingMap_ne_none _ (fcCids fc) fr
          (List.mem_append_left _ hfr) hc (keyOfInsert f) hkey hisnone

theorem upsertFilings_of_no_missing (rows : List FilingRow) (ctr : ℕ)
    (fc : List FilingInsert) (hfc : fc.isEmpty = false)
    (h : filingMissing rows (fcCids fc) fc = []) :
    upsertFilings rows ctr fc = (rows, ctr, filingInitMap rows (fcCids fc)) := by
  unfold upsertFilings
  rw [hfc, h]
  simp

theorem upsertFilings_snd_run (rows : List FilingRow) (ctr : ℕ)
    (fc : List FilingInsert) :
    upsertFilings (upsertFilings rows ctr fc).1
      (upsertFilings rows ctr fc).2.1 fc
      = upsertFilings rows ctr fc := by
  by_cases hfc : fc.isEmpty
  · have hval : upsertFilings rows ctr fc = (rows, ctr, []) := by
      unfold upsertFilings
      rw [hfc]
      simp
    rw [hval]
    unfold upsertFilings
    rw [hfc]
    simp
  · have hfc' : fc.isEmpty = false := by
      cases h : fc.isEmpty
      · rfl
      · exact absurd h hfc
    rw [upsertFilings_of_no_missing _ _ fc hfc'
      (filingMissing_after rows ctr fc)]
    unfold upsertFilings
    rw [hfc']
    by_cases hemp : (filingMissing rows (fcCids fc) fc).isEmpty
    · simp [hemp]
    · simp [hemp]

theorem withFactIds_length : ∀ (ctr : ℕ) (l : List StagedFact),
    (withFactIds ctr l).length = l.length := by
  intro ctr l
  induction l generalizing ctr with
  | nil => rfl
  | cons a t ih =>
    show (withFactIds ctr (a :: t)).length = t.length + 1
    unfold withFactIds
    rw [List.length_cons, ih (ctr + 1)]

theorem companyUpsert_idem (s : Store) (batch : List TidyRow) :
    companyUpsert (load_dataframe_to_db s batch) batch
      = companyUpsert s batch := by
  show upsertNamed mkCompany (fun c => c.company_id) (fun c => c.ticker)
      (companyUpsert s batch).1 (companyUpsert s batch).2.1 (tickersOf batch)
    = companyUpsert s batch
  unfold companyUpsert
  exact upsertNamed_snd_run _ _ _ (fun i n => rfl) _ _ _

theorem stmtUpsert_idem (s : Store) (batch : List TidyRow) :
    stmtUpsert (load_dataframe_to_db s batch) batch = stmtUpsert s batch := by
  show upsertNamed mkStatementType (fun x => x.statement_type_id)
      (fun x => x.name) (stmtUpsert s batch).1 (stmtUpsert s batch).2.1
      (stmtNamesOf batch)
    = stmtUpsert s batch
  unfold stmtUpsert
  exact upsertNamed_snd_run _ _ _ (fun i n => rfl) _ _ _

theorem liUpsert_idem (s : Store) (batch : List TidyRow) :
    liUpsert (load_dataframe_to_db s batch) batch = liUpsert s batch := by
  show upsertNamed mkLineItem (fun x => x.line_item_id) (fun x => x.name)
      (liUpsert s batch).1 (liUpsert s batch).2.1 (liNamesOf batch)
    = liUpsert s batch
  unfold liUpsert
  exact upsertNamed_snd_run _ _ _ (fun i n => rfl) _ _ _

theorem filingUpsert_idem (s : Store) (batch : List TidyRow) :
    filingUpsert (load_dataframe_to_db s batch) batch
      = filingUpsert s batch := by
  show upsertFilings (filingUpsert s batch).1 (filingUpsert s batch).2.1
      (filingsToCreate (filingTuplesOf batch)
        (companyUpsert (load_dataframe_to_db s batch) batch).2.2)
    = filingUpsert s batch
  rw [companyUpsert_idem]
  unfold filingUpsert
  exact upsertFilings_snd_run _ _ _

theorem loadPhases_idem (s : Store) (batch : List TidyRow) :
    loadPhases (load_dataframe_to_db s batch) batch
      = (load_dataframe_to_db s batch, (loadPhases s batch).2) := by
  unfold loadPhases
  rw [companyUpsert_idem, stmtUpsert_idem, liUpsert_idem, filingUpsert_idem]
  rfl

/-- C1: re-running the loader with the identical tidy batch leaves the
company, statement_type, line_item and filing row counts unchanged
after the second run (the natural-key upserts create no duplicates),
while the financial_fact row count increases again by the batch's
insertable row count, the staged fact list being the same in both runs
(fact insertion is not idempotent). -/
theorem load_dataframe_to_db_twice (s : Store) (batch : List TidyRow) :
    ((load_dataframe_to_db (load_dataframe_to_db s batch) batch).companies.length
      = (load_dataframe_to_db s batch).companies.length) ∧
    ((load_dataframe_to_db (load_dataframe_to_db s batch) batch).statementTypes.length
      = (load_dataframe_to_db s batch).statementTypes.length) ∧
    ((load_dataframe_to_db (load_dataframe_to_db s batch) batch).lineItems.length
      = (load_dataframe_to_db s batch).lineItems.length) ∧
    ((load_dataframe_to_db (load_dataframe_to_db s batch) batch).filings.length
      = (load_dataframe_to_db s batch).filings.length) ∧
    ((loadPhases (load_dataframe_to_db s batch) batch).2
      = (loadPhases s batch).2) ∧
    ((load_dataframe_to_db (load_dataframe_to_db s batch) batch).facts.length
      = (load_dataframe_to_db s batch).facts.length
        + (loadPhases (load_dataframe_to_db s batch) batch).2.length) := by
  have hc := companyUpsert_idem s batch
  have hs := stmtUpsert_idem s batch
  have hl := liUpsert_idem s batch
  have hf := filingUpsert_idem s batch
  have hp := loadPhases_idem s batch
  have hstaged : (loadPhases (load_dataframe_to_db s batch) batch).2
      = (loadPhases s batch).2 := by rw [hp]
  refine ⟨?_, ?_, ?_, ?_, hstaged, ?_⟩
  · show (companyUpsert (load_dataframe_to_db s batch) batch).1.length
      = (companyUpsert s batch).1.length
    rw [hc]
  · show (stmtUpsert (load_dataframe_to_db s batch) batch).1.length
      = (stmtUpsert s batch).1.length
    rw [hs]
  · show (liUpsert (load_dataframe_to_db s batch) batch).1.length
      = (liUpsert s batch).1.length
    rw [hl]
  · show (filingUpsert (load_dataframe_to_db s batch) batch).1.length
      = (filingUpsert s batch).1.length
    rw [hf]
  · show ((load_dataframe_to_db s batch).facts
        ++ withFactIds (load_dataframe_to_db s batch).nextFactId
          (loadPhases (load_dataframe_to_db s batch) batch).2).length
      = (load_dataframe_to_db s batch).facts.length
        + (loadPhases (load_dataframe_to_db s batch) batch).2.length
    rw [List.length_append, withFactIds_length]

theorem factChunkLoopFuel_partial : ∀ (d fuel : ℕ) (cur : Store)
    (staged : List StagedFact) (idx : ℕ),
    staged.length ≤ fuel →
    BATCH_SIZE * d < staged.length →
    (factChunkLoopFuel fuel cur staged idx (idx + d)).1 = true ∧
    (factChunkLoopFuel fuel cur staged idx (idx + d)).2.facts.length
      = cur.facts.length + BATCH_SIZE * d := by
  intro d
  induction d with
  | zero =>
    intro fuel cur staged idx hfuel hlen
    cases staged with
    | nil => simp at hlen
    | cons a rest =>
      cases fuel with
      | zero => simp at hfuel
      | succ f =>
        unfold factChunkLoopFuel
        simp
  | succ d ih =>
    intro fuel cur staged idx hfuel hlen
    cases staged with
    | nil => simp at hlen
    | cons a rest =>
      cases fuel with
      | zero => simp at hfuel
      | succ f =>
        have hB : (BATCH_SIZE : ℕ) = 1000 := rfl
        have hidx : ¬ (idx = idx + (d + 1)) := by omega
        unfold factChunkLoopFuel
        rw [if_neg hidx]
        have harg : idx + (d + 1) = (idx + 1) + d := by omega
        rw [harg]
        have hlen1 : BATCH_SIZE * d < ((a :: rest).drop BATCH_SIZE).length := by
          rw [List.length_drop, hB]
          rw [hB] at hlen
          omega
        have hfuel1 : ((a :: rest).drop BATCH_SIZE).length ≤ f := by
          rw [List.length_drop, hB]
          have hle : (a :: rest).length ≤ f + 1 := hfuel
          omega
        obtain ⟨h1, h2⟩ := ih f (commitChunk cur (a :: rest))
          ((a :: rest).drop BATCH_SIZE) (idx + 1) hfuel1 hlen1
        refine ⟨h1, ?_⟩
        rw [h2]
        have htake : ((a :: rest).take BATCH_SIZE).length = BATCH_SIZE := by
          rw [List.length_take, hB]
          rw [hB] at hlen
          omega
        show ((cur.facts ++ withFactIds cur.nextFactId
            ((a :: rest).take BATCH_SIZE)).length) + BATCH_SIZE * d
          = cur.facts.length + BATCH_SIZE * (d + 1)
        rw [List.length_append, withFactIds_length, htake]
        ring

/-- C2 (amended): if an exception is raised during the fact-insert
chunk loop, the pending chunk is rolled back (its inserts are not
committed) and the exception propagates to the caller; but fact chunks
committed before the failure stay in the store: the committed fact
count grows by exactly BATCH_SIZE rows per chunk completed before the
failing one. In particular a call staging at most BATCH_SIZE facts
(failure at chunk zero) leaves none of its fact inserts committed, while
a call staging more can be left partially applied. -/
theorem load_failure_rollback (s : Store) (batch : List TidyRow)
    (failAt : ℕ)
    (h : BATCH_SIZE * failAt < (loadPhases s batch).2.length) :
    (load_dataframe_to_db_failAt s batch failAt).1 = true ∧
    (load_dataframe_to_db_failAt s batch failAt).2.facts.length
      = s.facts.length + BATCH_SIZE * failAt := by
  unfold load_dataframe_to_db_failAt factChunkLoop
  have hmain := factChunkLoopFuel_partial failAt (loadPhases s batch).2.length
    (loadPhases s batch).1 (loadPhases s batch).2 0 le_rfl h
  rw [Nat.zero_add] at hmain
  have hfacts : (loadPhases s batch).1.facts = s.facts := rfl
  rw [hfacts] at hmain
  exact hmain

/-- Witness for C2: with one resolvable tidy row and a failure injected
at the first chunk commit, the exception propagates and no fact of the
call is committed. -/
theorem load_failure_rollback_witness :
    (load_dataframe_to_db_failAt ⟨[], [], [], [], [], 1, 1, 1, 1, 1⟩
      [⟨some "CATX", some "Balance Sheet", some "Total Assets",
        some "Three Months", some ⟨2025, 8, 13⟩, some ⟨2025, 6, 30⟩,
        some 2025, some true, none⟩] 0).1 = true ∧
    (load_dataframe_to_db_failAt ⟨[], [], [], [], [], 1, 1, 1, 1, 1⟩
      [⟨some "CATX", some "Balance Sheet", some "Total Assets",
        some "Three Months", some ⟨2025, 8, 13⟩, some ⟨2025, 6, 30⟩,
        some 2025, some true, none⟩] 0).2.facts.length = 0 := by
  have h := load_failure_rollback ⟨[], [], [], [], [], 1, 1, 1, 1, 1⟩
    [⟨some "CATX", some "Balance Sheet", some "Total Assets",
      some "Three Months", some ⟨2025, 8, 13⟩, some ⟨2025, 6, 30⟩,
      some 2025, some true, none⟩] 0 (by decide)
  simpa using h

theorem filterMap_replicate_some (f : α → Option β) (a : α) (b : β)
    (hf : f a = some b) :
    ∀ n, List.filterMap f (List.replicate n a) = List.replicate n b := by
  intro n
  induction n with
  | zero => rfl
  | succ m ih =>
    rw [List.replicate_succ, List.replicate_succ, List.filterMap_cons, hf, ih]

theorem dedupFirst_foldl_mem [DecidableEq α] (a : α) :
    ∀ (n : ℕ) (acc : List α), a ∈ acc →
    (List.replicate n a).foldl
      (fun acc x => if x ∈ acc then acc else acc ++ [x]) acc = acc := by
  intro n
  induction n with
  | zero => intro acc _; rfl
  | succ m ih =>
    intro acc ha
    rw [List.replicate_succ, List.foldl_cons, if_pos ha]
    exact ih acc ha

theorem dedupFirst_replicate [DecidableEq α] (a : α) (n : ℕ) (h : 0 < n) :
    dedupFirst (List.replicate n a) = [a] := by
  cases n with
  | zero => simp at h
  | succ m =>
    unfold dedupFirst
    rw [List.replicate_succ, List.foldl_cons]
    have hstep : (if a ∈ ([] : List α) then [] else [] ++ [a]) = [a] := by simp
    rw [hstep]
    exact dedupFirst_foldl_mem a m [a] (List.mem_singleton.mpr rfl)

/-- The concrete tidy row of the failure counterexample. -/
def cexRow : TidyRow :=
  ⟨some "CATX", some "Balance Sheet", some "Total Assets",
    some "Three Months", some ⟨2025, 8, 13⟩, some ⟨2025, 6, 30⟩,
    some 2025, some true, none⟩

/-- A batch of one thousand and one identical resolvable rows, staging
more facts than one chunk holds. -/
def cexBatch : List TidyRow := List.replicate 1001 cexRow

/-- The empty store with SQLite-style counters starting at one. -/
def cexStore : Store := ⟨[], [], [], [], [], 1, 1, 1, 1, 1⟩

theorem cex_tickers : tickersOf cexBatch = ["CATX"] := by
  unfold tickersOf cexBatch
  rw [filterMap_replicate_some (fun r => r.ticker) cexRow "CATX" rfl,
    List.map_replicate, dedupFirst_replicate (pyUpper "CATX") 1001 (by norm_num)]
  decide

theorem cex_stmtNames : stmtNamesOf cexBatch = ["Balance Sheet"] := by
  unfold stmtNamesOf cexBatch
  rw [filterMap_replicate_some (fun r => r.statement_type) cexRow
    "Balance Sheet" rfl, dedupFirst_replicate _ 1001 (by norm_num)]

theorem cex_liNames : liNamesOf cexBatch = ["Total Assets"] := by
  unfold liNamesOf cexBatch
  rw [filterMap_replicate_some (fun r => r.line_item) cexRow
    "Total Assets" rfl, dedupFirst_replicate _ 1001 (by norm_num)]

theorem cex_filingTuples : filingTuplesOf cexBatch
    = [(some "CATX", some ⟨2025, 8, 13⟩, some 2025, some true)] := by
  unfold filingTuplesOf cexBatch
  rw [List.map_replicate, dedupFirst_replicate _ 1001 (by norm_num)]
  decide

set_option maxRecDepth 8000 in
theorem cex_staged : (loadPhases cexStore cexBatch).2
    = List.replicate 1001 ⟨1, 1, 1, some "Three Months",
        some ⟨2025, 6, 30⟩, none⟩ := by
  unfold loadPhases
  dsimp only
  unfold filingUpsert companyUpsert stmtUpsert liUpsert
  rw [cex_tickers, cex_stmtNames, cex_liNames, cex_filingTuples]
  unfold stageFacts
  unfold cexBatch
  apply filterMap_replicate_some
  decide

/-- Counterexample for C2 as stated: on a batch staging one thousand
and one facts into an empty store, a failure injected at the second
chunk commit raises (the exception propagates) and yet one thousand
fact inserts of that same call remain committed: the batch is not
aborted as a whole, so a partially-applied set of the call's fact
inserts survives. -/
theorem load_failure_partial_commit :
    (load_dataframe_to_db_failAt cexStore cexBatch 1).1 = true ∧
    (load_dataframe_to_db_failAt cexStore cexBatch 1).2.facts.length = 1000 ∧
    (1000 : ℕ) ≠ 0 := by
  have hlen : (loadPhases cexStore cexBatch).2.length = 1001 := by
    rw [cex_staged, List.length_replicate]
  have h := factChunkLoopFuel_partial 1 ((loadPhases cexStore cexBatch).2.length)
    (loadPhases cexStore cexBatch).1 (loadPhases cexStore cexBatch).2 0 le_rfl
    (by rw [hlen]; decide)
  rw [Nat.zero_add] at h
  have hfacts : (loadPhases cexStore cexBatch).1.facts.length = 0 := rfl
  refine ⟨h.1, ?_, by decide⟩
  rw [show (load_dataframe_to_db_failAt cexStore cexBatch 1).2
      = (factChunkLoopFuel ((loadPhases cexStore cexBatch).2.length)
          (loadPhases cexStore cexBatch).1 (loadPhases cexStore cexBatch).2
          0 1).2 from rfl, h.2, hfacts]
  decide
